import Mathlib

/-!
Verification of the session control-and-diagnostics layer of a distributed
SQL engine (file `pkg/sql/session.go`): the span-forest trace reduction
(`generateSessionTraceVTable`, `getMessagesForSubtrace`,
`getOrderedChildSpans`), the session/query registry with its
authorization-sensitive cancel operations (`CancelQuery`, `CancelSession`),
the schema-change retry runner (`execSchemaChanges`), and the session
tracing state machine (`StartTracing`, `StopTracing`, `getRecording`).

Timestamps (Go `time.Time`) are modelled as natural numbers (nanoseconds
since the epoch); `time.Time.Before` is `<`.  Span identifiers (Go `uint64`)
are natural numbers: the code only compares them for equality, so no
wrap-around arithmetic is involved.  The recursion of
`getMessagesForSubtrace` is expressed with an explicit fuel parameter;
running out of fuel is one of the error outcomes, and the top-level entry
point supplies fuel ample for every input that the Go recursion itself
terminates on.
-/

namespace CockroachSession

/-! ## The log-message splitting regular expression

The Go source compiles

  `(?s:^((?:[^][ :]+/[^][ :]+\.[^][ :]+:[0-9]+)?) *((?:\[(?:[^][]|\[[^]]*\])*\])?) *(.*))`

Every character class appearing in the pattern is a union of the eight
classes below, so matching is invariant under projecting each character to
its class.  We transcribe the pattern as a `RegularExpression` over that
projected alphabet and reason with Mathlib's regular-expression semantics.
-/

/-- Character classes distinguished by the log-message pattern. -/
inductive Tok
  | lbrack
  | rbrack
  | space
  | colon
  | slash
  | dot
  | digit
  | other
deriving DecidableEq, Repr

/-- Class of a character, as the pattern distinguishes them. -/
def tokOfChar (c : Char) : Tok :=
  if c = '[' then .lbrack
  else if c = ']' then .rbrack
  else if c = ' ' then .space
  else if c = ':' then .colon
  else if c = '/' then .slash
  else if c = '.' then .dot
  else if c.isDigit then .digit
  else .other

/-- Token projection of a string. -/
def strTokens (s : String) : List Tok :=
  s.toList.map tokOfChar

/-- The wildcard `.` of the pattern (the `(?s)` flag makes it match any
character, newlines included). -/
def anyTok : RegularExpression Tok :=
  .char .lbrack + .char .rbrack + .char .space + .char .colon +
    .char .slash + .char .dot + .char .digit + .char .other

/-- The class `[^][ :]`. -/
def locChar : RegularExpression Tok :=
  .char .slash + .char .dot + .char .digit + .char .other

/-- `X+`. -/
def plus1 (r : RegularExpression Tok) : RegularExpression Tok :=
  r * r.star

/-- `(?:X)?`. -/
def optRE (r : RegularExpression Tok) : RegularExpression Tok :=
  1 + r

/-- The location component `[^][ :]+/[^][ :]+\.[^][ :]+:[0-9]+`. -/
def locRE : RegularExpression Tok :=
  plus1 locChar * .char .slash * plus1 locChar * .char .dot *
    plus1 locChar * .char .colon * plus1 (.char .digit)

/-- The class `[^][]`. -/
def nonBracket : RegularExpression Tok :=
  .char .space + .char .colon + .char .slash + .char .dot + .char .digit + .char .other

/-- The class `[^]]`. -/
def nonRbrack : RegularExpression Tok :=
  .char .lbrack + nonBracket

/-- The tag component `\[(?:[^][]|\[[^]]*\])*\]`. -/
def tagRE : RegularExpression Tok :=
  .char .lbrack * (nonBracket + .char .lbrack * nonRbrack.star * .char .rbrack).star *
    .char .rbrack

/-- The whole pattern `logMessageRE` of the source, over the projected
alphabet: `loc? *tag? *rest`. -/
def logMessageRE : RegularExpression Tok :=
  optRE locRE * (RegularExpression.char Tok.space).star * optRE tagRE *
    (RegularExpression.char Tok.space).star * anyTok.star

/-! ## The submatch decomposition

The three capture groups (location, tag, free text) are extracted by a
direct parse of the same grammar, modelling the greedy decomposition the Go
regexp engine produces.  None of the verified claims depends on the exact
decomposition, only on the match never failing, which is settled against
the transcribed regular expression above. -/

/-- Membership in the class `[^][ :]`. -/
def isLocChar (c : Char) : Bool :=
  !(c = '[' || c = ']' || c = ' ' || c = ':')

/-- Checks that a run of `[^][ :]` characters decomposes as
`[^][ :]+/[^][ :]+\.[^][ :]+` (a slash at position at least 1,
and a dot at least two places later and at least two places from the end). -/
def locRunOK (r : List Char) : Bool :=
  (List.range r.length).any fun i =>
    (List.range r.length).any fun j =>
      r.getD i ' ' = '/' && r.getD j ' ' = '.' &&
        decide (1 ≤ i) && decide (i + 2 ≤ j) && decide (j + 2 ≤ r.length)

/-- Greedy parse of the optional location component; `none` when the input
does not start with a location. -/
def parseLoc (cs : List Char) : Option (List Char × List Char) :=
  let run := cs.takeWhile isLocChar
  let rest := cs.drop run.length
  match rest with
  | ':' :: rest2 =>
    let ds := rest2.takeWhile Char.isDigit
    if locRunOK run && !ds.isEmpty then
      some (run ++ ':' :: ds, rest2.drop ds.length)
    else none
  | _ => none

set_option linter.unusedVariables false in

/-- Greedy parse of the tag body `(?:[^][]|\[[^]]*\])*`: returns the
consumed content and the remaining input. -/
def tagBody : List Char → List Char × List Char
  | [] => ([], [])
  | c :: rest =>
    if c = ']' then ([], c :: rest)
    else if c = '[' then
      let inner := rest.takeWhile fun d => !(d = ']')
      match h2 : rest.drop inner.length with
      | ']' :: rest2 =>
        let (b, r) := tagBody rest2
        ('[' :: inner ++ ']' :: b, r)
      | _ => ([], c :: rest)
    else
      let (b, r) := tagBody rest
      (c :: b, r)
termination_by cs => cs.length
decreasing_by
  · have hlen : (rest.drop (rest.takeWhile fun d => !(d = ']')).length).length ≤ rest.length := by
      simp
    rw [h2] at hlen
    simp only [List.length_cons] at hlen
    simp
    omega
  · simp

/-- Greedy parse of the optional tag component. -/
def parseTag (cs : List Char) : Option (List Char × List Char) :=
  match cs with
  | '[' :: rest =>
    let (b, r) := tagBody rest
    match r with
    | ']' :: r2 => some ('[' :: b ++ [']'], r2)
    | _ => none
  | _ => none

/-- The three submatches (location, tag, message) of a log message. -/
def splitLogMsg (s : String) : String × String × String :=
  let cs := s.toList
  let (loc, r1) := match parseLoc cs with
    | some p => p
    | none => ([], cs)
  let r2 := r1.dropWhile fun c => c = ' '
  let (tag, r3) := match parseTag r2 with
    | some p => p
    | none => ([], r2)
  let r4 := r3.dropWhile fun c => c = ' '
  (String.mk loc, String.mk tag, String.mk r4)

/-- Embeds `logMessageRE.FindStringSubmatchIndex`: `none` exactly when the
pattern does not match the message (the Go call returns `nil`), otherwise
the submatch decomposition. -/
def findStringSubmatchIndex (s : String) : Option (String × String × String) :=
  if logMessageRE.rmatch (strTokens s) then some (splitLogMsg s) else none

/-! ## The span data model and the trace reduction -/

/-- A log record of a recorded span (`tracing.RecordedSpan_LogRecord`):
a timestamp and key/value fields. -/
structure RecordedSpan_LogRecord where
  time : Nat
  fields : List (String × String)
deriving DecidableEq, Repr

/-- A recorded span (`tracing.RecordedSpan`), as consumed by the reduction:
span and parent identifiers, operation name, start time, duration
(`0` means the span was never finished) and its ordered log records. -/
structure RecordedSpan where
  spanID : Nat
  parentSpanID : Nat
  operation : String
  startTime : Nat
  duration : Nat
  logs : List RecordedSpan_LogRecord
deriving DecidableEq, Repr

/-- The source's `spanWithIndex`: a span together with its position in the
input sequence. -/
structure spanWithIndex where
  span : RecordedSpan
  index : Nat
deriving DecidableEq, Repr

/-- The source's `logRecordRow`: a log message and its metadata, produced
while flattening a trace. -/
structure logRecordRow where
  timestamp : Nat
  msg : String
  span : spanWithIndex
  index : Nat
deriving DecidableEq, Repr

/-- SQL datums appearing in the `session_trace` rows (`tree.Datum`). -/
inductive Datum
  | dNull
  | dInt (n : Nat)
  | dString (s : String)
  | dTimestampTZ (t : Nat)
  | dInterval (nanos : Nat)
deriving DecidableEq, Repr

/-- A row of the `session_trace` virtual table (the source's `traceRow`,
an 8-element datum array; fields are named after the source's column
comments). -/
structure traceRow where
  span_idx : Datum
  message_idx : Datum
  timestamp : Datum
  duration : Datum
  operation : Datum
  location : Datum
  tag : Datum
  message : Datum
deriving DecidableEq, Repr

/-- Failure outcomes of the reduction.  `duplicateSpan` and `unableToSplit`
are the two error returns of the source; `indexOutOfRange` models the Go
runtime panic that an out-of-range child access would raise (reachable only
for log timestamps at or beyond the year-6000 sentinel); `outOfFuel` is the
fuel-exhaustion outcome of this embedding. -/
inductive traceError
  | duplicateSpan (id : Nat)
  | unableToSplit (msg : String)
  | indexOutOfRange
  | outOfFuel
deriving DecidableEq, Repr

deriving instance DecidableEq for Except

/-- The sentinel `time.Date(6000, 0, 0, 0, 0, 0, 0, time.UTC)` of
`getMessagesForSubtrace`, in nanoseconds since the Unix epoch.  The exact
value is immaterial to the development; what matters is that it is a fixed
instant later than every realistic timestamp. -/
def maxTime : Nat := 127154070000000000000

/-- The source's `extractMsgFromRecord` field scan: the first `event` or
`error` field wins. -/
def extractMsgFromFields : List (String × String) → String
  | [] => "<event missing in trace message>"
  | (key, value) :: rest =>
    if key = "event" then value
    else if key = "error" then "error:" ++ value
    else extractMsgFromFields rest

/-- Extracts the message of the event, which is either in an `event` or an
`error` field. -/
def extractMsgFromRecord (rec : RecordedSpan_LogRecord) : String :=
  extractMsgFromFields rec.fields

/-- Returns all the spans in `allSpans` that are children of `spanID`, in
input order (the source's `getOrderedChildSpans`). -/
def getOrderedChildSpans (spanID : Nat) (allSpans : List RecordedSpan) : List spanWithIndex :=
  (allSpans.enum.filter fun p => p.2.parentSpanID = spanID).map fun p =>
    { span := p.2, index := p.1 }

/-- The dummy message marking the beginning of a span
(`"=== SPAN START: %s ==="`). -/
def spanStartMsg (operation : String) : String :=
  "=== SPAN START: " ++ operation ++ " ==="

mutual

/-- The source's `getMessagesForSubtrace`: interleaves a span's log
messages with those of its children, recursively; `seenSpans` records every
span that is part of an already-emitted subtrace.  `fuel` bounds the
recursion depth of this embedding; every recursive call consumes one unit. -/
def getMessagesForSubtrace (fuel : Nat) (span : spanWithIndex)
    (allSpans : List RecordedSpan) (seenSpans : List Nat) :
    Except traceError (List logRecordRow × List Nat) :=
  if span.span.spanID ∈ seenSpans then .error (.duplicateSpan span.span.spanID)
  else
    match fuel with
    | 0 => .error .outOfFuel
    | fuel + 1 =>
      let startRow : logRecordRow :=
        { timestamp := span.span.startTime
          msg := spanStartMsg span.span.operation
          span := span
          index := 0 }
      match mergeSpanLogs fuel span allSpans span.span.logs 0
          (getOrderedChildSpans span.span.spanID allSpans)
          (span.span.spanID :: seenSpans) with
      | .error e => .error e
      | .ok (rows, seen2) => .ok (startRow :: rows, seen2)

/-- The merge loop of `getMessagesForSubtrace`: two cursors, one over the
span's own logs (`logs`, with `i` the number of log records already
emitted) and one over its children in order (`childSpans`); the head with
the earlier timestamp is taken, a missing head standing in as the
year-6000 sentinel `maxTime`.  The source compares `logTime` and
`childTime` once, with the sentinel substituted for a missing head; here
that single comparison is expanded into one case per cursor shape, each
branch being the loop body with the sentinel plugged in.  An exhausted
cursor losing the comparison means the Go code indexes past the end of its
slice and panics, modelled by `indexOutOfRange` (reachable only for
timestamps at or beyond the sentinel). -/
def mergeSpanLogs (fuel : Nat) (span : spanWithIndex) (allSpans : List RecordedSpan)
    (logs : List RecordedSpan_LogRecord) (i : Nat) (childSpans : List spanWithIndex)
    (seenSpans : List Nat) : Except traceError (List logRecordRow × List Nat) :=
  match fuel with
  | 0 => .error .outOfFuel
  | fuel + 1 =>
    match logs, childSpans with
    | [], [] => .ok ([], seenSpans)
    | l :: ls, [] =>
      if l.time < maxTime then
        match mergeSpanLogs fuel span allSpans ls (i + 1) [] seenSpans with
        | .error e => .error e
        | .ok (rows, seen2) =>
          .ok ({ timestamp := l.time
                 msg := extractMsgFromRecord l
                 span := span
                 index := i + 1 } :: rows, seen2)
      else .error .indexOutOfRange
    | [], c :: cs =>
      if maxTime < c.span.startTime then .error .indexOutOfRange
      else
        match getMessagesForSubtrace fuel c allSpans seenSpans with
        | .error e => .error e
        | .ok (childRows, seen2) =>
          match mergeSpanLogs fuel span allSpans [] i cs seen2 with
          | .error e => .error e
          | .ok (rows, seen3) => .ok (childRows ++ rows, seen3)
    | l :: ls, c :: cs =>
      if l.time < c.span.startTime then
        match mergeSpanLogs fuel span allSpans ls (i + 1) (c :: cs) seenSpans with
        | .error e => .error e
        | .ok (rows, seen2) =>
          .ok ({ timestamp := l.time
                 msg := extractMsgFromRecord l
                 span := span
                 index := i + 1 } :: rows, seen2)
      else
        match getMessagesForSubtrace fuel c allSpans seenSpans with
        | .error e => .error e
        | .ok (childRows, seen2) =>
          match mergeSpanLogs fuel span allSpans (l :: ls) i cs seen2 with
          | .error e => .error e
          | .ok (rows, seen3) => .ok (childRows ++ rows, seen3)

end

/-- The top-level loop of `generateSessionTraceVTable` over the input
sequence (paired with positions): spans already seen as part of an earlier
subtrace are skipped, every other span is expanded as the root of its
subtrace. -/
def processSpans (fuel : Nat) (allSpans : List RecordedSpan) :
    List (Nat × RecordedSpan) → List Nat → Except traceError (List logRecordRow)
  | [], _ => .ok []
  | (spanIdx, span) :: rest, seenSpans =>
    if span.spanID ∈ seenSpans then processSpans fuel allSpans rest seenSpans
    else
      match getMessagesForSubtrace fuel { span := span, index := spanIdx } allSpans seenSpans with
      | .error e => .error e
      | .ok (msgs, seen2) =>
        match processSpans fuel allSpans rest seen2 with
        | .error e => .error e
        | .ok more => .ok (msgs ++ more)

/-- Transforms one log message into a table row: the operation column is set
only on the first row of a span (message index 0), the duration column only
there and only when the span was finished, and the message is decomposed by
the splitting regular expression (an unmatchable message is a reduction
error). -/
def toTraceRow (lrr : logRecordRow) : Except traceError traceRow :=
  let operation : Datum :=
    if lrr.index = 0 then .dString lrr.span.span.operation else .dNull
  let dur : Datum :=
    if lrr.index = 0 ∧ lrr.span.span.duration ≠ 0 then .dInterval lrr.span.span.duration
    else .dNull
  match findStringSubmatchIndex lrr.msg with
  | none => .error (.unableToSplit lrr.msg)
  | some (loc, tag, msg) =>
    .ok { span_idx := .dInt lrr.span.index
          message_idx := .dInt lrr.index
          timestamp := .dTimestampTZ lrr.timestamp
          duration := dur
          operation := operation
          location := .dString loc
          tag := .dString tag
          message := .dString msg }

/-- The row-building loop of `generateSessionTraceVTable`, aborting on the
first message that fails to decompose. -/
def rowsToTable : List logRecordRow → Except traceError (List traceRow)
  | [] => .ok []
  | lrr :: rest =>
    match toTraceRow lrr with
    | .error e => .error e
    | .ok row =>
      match rowsToTable rest with
      | .error e => .error e
      | .ok rows => .ok (row :: rows)

/-- Fuel ample for any input on which the Go recursion terminates: the
total number of recursive calls is bounded by the number of merge steps
(one per log record and one per child-list entry, plus one to finish) over
at most one subtrace expansion per span. -/
def traceFuel (spans : List RecordedSpan) : Nat :=
  (spans.length + (spans.map fun s => s.logs.length).sum + 2) * (spans.length + 2)

/-- The source's `generateSessionTraceVTable`: flattens a forest of
recorded spans into the ordered rows of the `session_trace` virtual
table. -/
def generateSessionTraceVTable (spans : List RecordedSpan) :
    Except traceError (List traceRow) :=
  match processSpans (traceFuel spans) spans spans.enum [] with
  | .error e => .error e
  | .ok allLogs => rowsToTable allLogs

/-! ## The session tracing controller

State machine of `SessionTracing` (`StartTracing` / `StopTracing` /
`getRecording`).  The collaborating tracing infrastructure is supplied as
an environment: whether the session is inside a transaction, the span found
on the transaction context, the fresh "session recording" span the tracer
would create, and the recording each span would deliver.  Spans are opaque
handles, modelled as naturals.  The context hijack/unhijack performed on
the connExecutor's `ctxHolder` mutates the executor, not the
`SessionTracing` state, and is outside this model. -/

/-- The mutable state of the source's `SessionTracing` struct. -/
structure SessionTracing where
  enabled : Bool
  kvTracingEnabled : Bool
  recordingType : Nat
  firstTxnSpan : Option Nat
  connSpan : Option Nat
  lastRecording : List traceRow
deriving Repr

/-- The tracing collaborators consumed by `StartTracing` / `StopTracing`:
`inTxn` is whether the state machine is not in `stateNoTxn`, `txnCtxSpan`
the span found on the transaction's context, `newConnSpan` the span the
tracer creates for the connection (whether as child or root is
indistinguishable here), and `recordingOf` is `tracing.GetRecording`. -/
structure TracingEnv where
  inTxn : Bool
  txnCtxSpan : Option Nat
  newConnSpan : Nat
  recordingOf : Nat → List RecordedSpan

/-- Error outcomes of the tracing controller.  `noTxnSpan` is the source's
"no txn span for SessionTracing" error; `nilConnSpan` models the Go nil
dereference of an absent connection span (unreachable through the API);
`reduction e` propagates a reduction failure. -/
inductive tracingError
  | noTxnSpan
  | nilConnSpan
  | reduction (e : traceError)
deriving DecidableEq, Repr

/-- The source's `SessionTracing.StartTracing`: a no-op when already
enabled; otherwise captures the transaction span if inside a transaction
(an error if the transaction context carries none), records mode and kv
flag, and installs a fresh connection-level recording span. -/
def StartTracing (env : TracingEnv) (st : SessionTracing) (recType : Nat)
    (kvTracingEnabled : Bool) : SessionTracing × Option tracingError :=
  if st.enabled then (st, none)
  else if env.inTxn then
    match env.txnCtxSpan with
    | none => (st, some .noTxnSpan)
    | some sp =>
      ({ st with
          enabled := true
          kvTracingEnabled := kvTracingEnabled
          recordingType := recType
          firstTxnSpan := some sp
          connSpan := some env.newConnSpan }, none)
  else
    ({ st with
        enabled := true
        kvTracingEnabled := kvTracingEnabled
        recordingType := recType
        connSpan := some env.newConnSpan }, none)

/-- The source's `SessionTracing.StopTracing`: a no-op when not enabled;
otherwise flips `enabled` off first, collects the recordings of the
captured transaction span (if any) and of the connection span, runs the
reduction, and stores the result as the last recording (`nil` on a
reduction error, as the Go multiple-assignment does). -/
def StopTracing (env : TracingEnv) (st : SessionTracing) :
    SessionTracing × Option tracingError :=
  if st.enabled then
    let st1 := { st with enabled := false }
    match st.connSpan with
    | none => (st1, some .nilConnSpan)
    | some conn =>
      let spans :=
        (match st.firstTxnSpan with
          | some s => env.recordingOf s
          | none => []) ++ env.recordingOf conn
      match generateSessionTraceVTable spans with
      | .ok rows => ({ st1 with lastRecording := rows }, none)
      | .error e => ({ st1 with lastRecording := [] }, some (.reduction e))
  else (st, none)

/-- The source's `SessionTracing.getRecording`: the stored last recording
when idle, otherwise a reduction of everything captured so far. -/
def getRecording (env : TracingEnv) (st : SessionTracing) :
    Except tracingError (List traceRow) :=
  if st.enabled then
    match st.connSpan with
    | none => .error .nilConnSpan
    | some conn =>
      match generateSessionTraceVTable
          ((match st.firstTxnSpan with
            | some s => env.recordingOf s
            | none => []) ++ env.recordingOf conn) with
      | .ok rows => .ok rows
      | .error e => .error (.reduction e)
  else .ok st.lastRecording

/-! ## The session/query registry

`SessionRegistry` is a map from cluster-wide IDs to registered sessions; a
registered session is modelled by its capability surface as the cancel
operations observe it: the owning user and which query IDs a `cancelQuery`
call would find.  Go map iteration order is unspecified; the list order of
`store` stands for one arbitrary iteration order, and the theorems below
quantify over all of them.  The Go `CancelQuery` first parses the textual
query ID (`StringToClusterWideID`, defined outside this source file) and
rejects malformed input; both cancel operations are modelled from the
successfully-parsed ID on. -/

/-- The cluster superuser (`security.RootUser`). -/
def RootUser : String := "root"

/-- A registered session's capability surface (`registrySession`). -/
structure registrySession where
  user : String
  hasQuery : Nat → Bool

/-- The registry: a set of sessions keyed by cluster-wide ID. -/
structure SessionRegistry where
  store : List (Nat × registrySession)

/-- Not-found errors of the cancel operations, carrying the ID the Go
`fmt.Errorf` interpolates. -/
inductive cancelError
  | queryNotFound (id : Nat)
  | sessionNotFound (id : Nat)
deriving DecidableEq, Repr

/-- The scan of `SessionRegistry.CancelQuery`: unauthorized sessions are
skipped; the first authorized session that reports the query found and
cancelled yields success; otherwise the not-found error. -/
def cancelQueryLoop (store : List (Nat × registrySession)) (queryID : Nat)
    (username : String) : Bool × Option cancelError :=
  match store with
  | [] => (false, some (.queryNotFound queryID))
  | (_, session) :: rest =>
    if ¬(username = RootUser ∨ username = session.user) then
      cancelQueryLoop rest queryID username
    else if session.hasQuery queryID then (true, none)
    else cancelQueryLoop rest queryID username

/-- The source's `SessionRegistry.CancelQuery` (after ID parsing). -/
def CancelQuery (r : SessionRegistry) (queryID : Nat) (username : String) :
    Bool × Option cancelError :=
  cancelQueryLoop r.store queryID username

/-- The scan of `SessionRegistry.CancelSession`: same authorization rule,
keyed by session ID. -/
def cancelSessionLoop (store : List (Nat × registrySession)) (sessionID : Nat)
    (username : String) : Bool × Option cancelError :=
  match store with
  | [] => (false, some (.sessionNotFound sessionID))
  | (id, session) :: rest =>
    if ¬(username = RootUser ∨ username = session.user) then
      cancelSessionLoop rest sessionID username
    else if id = sessionID then (true, none)
    else cancelSessionLoop rest sessionID username

/-- The source's `SessionRegistry.CancelSession`. -/
def CancelSession (r : SessionRegistry) (sessionID : Nat) (username : String) :
    Bool × Option cancelError :=
  cancelSessionLoop r.store sessionID username

/-! ## The schema-change retry runner

`execSchemaChanges` runs the queued schema changers in order.  One
`sc.exec` attempt is modelled by its classified outcome; a schema changer
carries the list of outcomes its successive attempts would produce.  The
retry loop (`retry.Start(base.DefaultRetryOptions())`) retries a retryable
error indefinitely, so a changer whose listed outcomes are all retryable
models a diverging run, returned as `none`.  The `SyncFilter` testing knob
and the per-changer runtime handles (`db`, `testingKnobs`,
`distSQLPlanner`) the loop installs have no effect on the modelled
outcomes. -/

/-- Classified outcome of one `sc.exec` attempt: success, the benign
`sqlbase.ErrDescriptorNotFound`, an error classified by
`isPermanentSchemaChangeError`, or a retryable error. -/
inductive schemaChangeOutcome
  | success
  | errDescriptorNotFound
  | permanentError (e : Nat)
  | retryableError
deriving DecidableEq, Repr

/-- A queued schema changer, modelled by the outcomes of its successive
execution attempts. -/
structure SchemaChanger where
  attempts : List schemaChangeOutcome
deriving DecidableEq, Repr

/-- The per-changer retry loop: retries past retryable errors, stops on the
first other outcome, reporting the permanent error (if that is what stopped
it) and the number of attempts made.  `none` when the listed outcomes are
exhausted while still retrying. -/
def runRetryingJob : List schemaChangeOutcome → Option (Option Nat × Nat)
  | [] => none
  | o :: rest =>
    match o with
    | .retryableError =>
      match runRetryingJob rest with
      | none => none
      | some (e, n) => some (e, n + 1)
    | .success => some (none, 1)
    | .errDescriptorNotFound => some (none, 1)
    | .permanentError e => some (some e, 1)

/-- The source's `schemaChangerCollection`. -/
structure schemaChangerCollection where
  schemaChangers : List SchemaChanger
deriving DecidableEq, Repr

/-- The main loop of `execSchemaChanges`, threading `firstError`; also
returns the per-changer attempt counts. -/
def execSchemaChangesLoop :
    List SchemaChanger → Option Nat → Option (Option Nat × List Nat)
  | [], firstError => some (firstError, [])
  | sc :: rest, firstError =>
    match runRetryingJob sc.attempts with
    | none => none
    | some (jobErr, n) =>
      let firstError2 :=
        match firstError, jobErr with
        | none, some e => some e
        | fe, _ => fe
      match execSchemaChangesLoop rest firstError2 with
      | none => none
      | some (fe, counts) => some (fe, n :: counts)

/-- The source's `execSchemaChanges`: runs every queued changer in order,
clears the queue, and returns the first-recorded permanent error (`none`
inside the option when no changer failed permanently), together with the
attempt counts of this model. -/
def execSchemaChanges (scc : schemaChangerCollection) :
    Option (Option Nat × List Nat × schemaChangerCollection) :=
  match execSchemaChangesLoop scc.schemaChangers none with
  | none => none
  | some (fe, counts) => some (fe, counts, { schemaChangers := [] })

/-- An attempt outcome on which the retry loop stops. -/
def isTerminalOutcome : schemaChangeOutcome → Bool
  | .retryableError => false
  | _ => true

/-- First outcome the retry loop would stop on. -/
def firstTerminal (l : List schemaChangeOutcome) : Option schemaChangeOutcome :=
  l.find? isTerminalOutcome

/-- The permanent error carried by a terminal outcome, if any. -/
def permErrOf : Option schemaChangeOutcome → Option Nat
  | some (.permanentError e) => some e
  | _ => none

/-- Written from the spec's words, for comparison with the implementation:
"the runner returns the single first-recorded permanent error, if any" —
the permanent error of the earliest job in queue order whose terminal
outcome is permanent. -/
def specFirstError (jobs : List SchemaChanger) : Option Nat :=
  (jobs.filterMap fun j => permErrOf (firstTerminal j.attempts)).head?

/-- Number of retryable attempts before the terminal outcome. -/
def leadingRetryables (l : List schemaChangeOutcome) : Nat :=
  (l.takeWhile fun o => !isTerminalOutcome o).length

/-! ## Concrete reduction inputs for counterexamples and witnesses -/

/-- Two root spans sharing span identifier 1: the reduction silently drops
the second instead of failing. -/
def c1Input : List RecordedSpan :=
  [ { spanID := 1, parentSpanID := 0, operation := "a", startTime := 10, duration := 5,
      logs := [] },
    { spanID := 1, parentSpanID := 0, operation := "b", startTime := 20, duration := 5,
      logs := [] } ]

/-- A parent whose single log entry carries the same timestamp (5) as its
child's start time. -/
def c2Parent : RecordedSpan :=
  { spanID := 1, parentSpanID := 0, operation := "p", startTime := 1, duration := 9,
    logs := [ { time := 5, fields := [("event", "L")] } ] }

def c2Child : RecordedSpan :=
  { spanID := 2, parentSpanID := 1, operation := "c", startTime := 5, duration := 1,
    logs := [] }

def c2Input : List RecordedSpan := [c2Parent, c2Child]

/-- A parent with two children out of start-time order in the input: the
child starting at 8 precedes the child starting at 3. -/
def c3Input : List RecordedSpan :=
  [ { spanID := 1, parentSpanID := 0, operation := "p", startTime := 1, duration := 9,
      logs := [] },
    { spanID := 2, parentSpanID := 1, operation := "b", startTime := 8, duration := 1,
      logs := [] },
    { spanID := 3, parentSpanID := 1, operation := "a", startTime := 3, duration := 1,
      logs := [] } ]

/-- Two root spans sharing span identifier 4: the second contributes no row
at all to the (successful) output. -/
def c7Input : List RecordedSpan :=
  [ { spanID := 4, parentSpanID := 0, operation := "x", startTime := 3, duration := 0,
      logs := [] },
    { spanID := 4, parentSpanID := 0, operation := "y", startTime := 6, duration := 2,
      logs := [] } ]

/-- The total submatch decomposition as a pure function (the pattern always
matches, so `findStringSubmatchIndex` always delivers a decomposition). -/
def rowOf (lrr : logRecordRow) : traceRow :=
  { span_idx := .dInt lrr.span.index
    message_idx := .dInt lrr.index
    timestamp := .dTimestampTZ lrr.timestamp
    duration :=
      if lrr.index = 0 ∧ lrr.span.span.duration ≠ 0 then .dInterval lrr.span.span.duration
      else .dNull
    operation := if lrr.index = 0 then .dString lrr.span.span.operation else .dNull
    location := .dString (splitLogMsg lrr.msg).1
    tag := .dString (splitLogMsg lrr.msg).2.1
    message := .dString (splitLogMsg lrr.msg).2.2 }

/-! ## Every seen identifier comes from a processed input span -/

/-- Every identifier in the seen set was put there by a successful subtrace
expansion of an input span carrying it. -/
def goodSeen (all : List RecordedSpan) (seen : List Nat) : Prop :=
  ∀ x ∈ seen, ∃ (m : Nat) (spm : RecordedSpan) (f : Nat) (s s2 : List Nat)
    (rs : List logRecordRow),
    all[m]? = some spm ∧ spm.spanID = x ∧
    getMessagesForSubtrace f { span := spm, index := m } all s = .ok (rs, s2)

/-! ## Shape of the collected rows (claim C7) -/

/-- Every collected row's span is the input span at the row's span
index. -/
def rowsWF (all : List RecordedSpan) (rows : List logRecordRow) : Prop :=
  ∀ r ∈ rows, all[r.span.index]? = some r.span.span

/-- Start rows (message index 0) carry identifiers freshly added between
the entry and exit seen sets. -/
def startRowsDelta (rows : List logRecordRow) (seen seen2 : List Nat) : Prop :=
  ∀ r ∈ rows, r.index = 0 →
    r.span.span.spanID ∈ seen2 ∧ r.span.span.spanID ∉ seen

/-- No start row carries an identifier from the entry seen set. -/
def startRowsNotSeen (rows : List logRecordRow) (seen : List Nat) : Prop :=
  ∀ r ∈ rows, r.index = 0 → r.span.span.spanID ∉ seen

/-- The identifiers of the start rows are pairwise distinct. -/
def startRowsNodup (rows : List logRecordRow) : Prop :=
  ((rows.filter fun r => r.index == 0).map fun r => r.span.span.spanID).Nodup

/-- Every row's span also has its start row in the collection. -/
def rowsHaveStart (rows : List logRecordRow) : Prop :=
  ∀ r ∈ rows, ∃ r0 ∈ rows, r0.index = 0 ∧ r0.span = r.span

/-- A single span with one log record and zero duration, for the C7
witness. -/
def c7WitnessInput : List RecordedSpan :=
  [ { spanID := 5, parentSpanID := 0, operation := "w", startTime := 2, duration := 0,
      logs := [ { time := 4, fields := [("event", "m")] } ] } ]

def c7WitnessRows : List traceRow :=
  [ { span_idx := .dInt 0, message_idx := .dInt 0, timestamp := .dTimestampTZ 2,
      duration := .dNull, operation := .dString "w", location := .dString "",
      tag := .dString "", message := .dString "=== SPAN START: w ===" },
    { span_idx := .dInt 0, message_idx := .dInt 1, timestamp := .dTimestampTZ 4,
      duration := .dNull, operation := .dNull, location := .dString "",
      tag := .dString "", message := .dString "m" } ]

/-- A parent with two children, sorted by start time, for the C3
witness. -/
def c3SortedInput : List RecordedSpan :=
  [ { spanID := 1, parentSpanID := 0, operation := "p", startTime := 1, duration := 9,
      logs := [] },
    { spanID := 2, parentSpanID := 1, operation := "a", startTime := 3, duration := 1,
      logs := [] },
    { spanID := 3, parentSpanID := 1, operation := "b", startTime := 8, duration := 1,
      logs := [] } ]

/-! ## The reduction never fails on message decomposition (claim C9) -/


/-- Whether a reduction error is the "unable to split trace message"
error. -/
def isSplitError : traceError → Bool
  | .unableToSplit _ => true
  | _ => false

/-- Whether a reduction outcome is a message-decomposition failure. -/
def failedOnSplit : Except traceError (List traceRow) → Bool
  | .error e => isSplitError e
  | .ok _ => false

/-- Concrete registry for the C4 witness: alice owns session 1 (holding
query 5), bob owns session 2 (holding nothing). -/
def witnessRegistry : SessionRegistry :=
  { store := [(1, { user := "alice", hasQuery := fun q => q == 5 }),
              (2, { user := "bob", hasQuery := fun _ => false })] }

/-- Concrete queue for the C5 witness: job 1 succeeds after one retry,
job 2 fails permanently (error 42) after one retry, job 3 fails permanently
(error 7) at once.  The run returns job 2's error, attempts every job, and
attempts each job exactly once after its terminal classification. -/
def witnessQueue : schemaChangerCollection :=
  { schemaChangers :=
      [ { attempts := [.retryableError, .success] },
        { attempts := [.retryableError, .permanentError 42] },
        { attempts := [.permanentError 7] } ] }

/-- Concrete environment for the tracing witnesses. -/
def witnessEnv : TracingEnv :=
  { inTxn := true, txnCtxSpan := some 9, newConnSpan := 4, recordingOf := fun _ => [] }

/-- Concrete environment outside any transaction, for the C10 witness. -/
def witnessNoTxnEnv : TracingEnv :=
  { inTxn := false, txnCtxSpan := none, newConnSpan := 6, recordingOf := fun _ => [] }

/-- Concrete enabled and idle tracing states for the C6 witness. -/
def witnessEnabledState : SessionTracing :=
  { enabled := true, kvTracingEnabled := true, recordingType := 1,
    firstTxnSpan := some 9, connSpan := some 4, lastRecording := [] }

def witnessIdleState : SessionTracing :=
  { enabled := false, kvTracingEnabled := false, recordingType := 0,
    firstTxnSpan := none, connSpan := none, lastRecording := [] }

theorem anyTok_star_rmatch (x : List Tok) : anyTok.star.rmatch x = true := by
  rw [RegularExpression.star_rmatch_iff]
  refine ⟨x.map fun t => [t], ?_, ?_⟩
  · induction x with
    | nil => rfl
    | cons a rest ih =>
      simp only [List.map_cons, List.flatten_cons, List.singleton_append]
      exact congrArg (List.cons a) ih
  · intro t ht
    simp only [List.mem_map] at ht
    obtain ⟨a, _, rfl⟩ := ht
    refine ⟨by simp, ?_⟩
    cases a <;> decide

theorem logMessageRE_rmatch (x : List Tok) : logMessageRE.rmatch x = true := by
  rw [logMessageRE, RegularExpression.mul_rmatch_iff]
  exact ⟨[], x, rfl, by decide, anyTok_star_rmatch x⟩

theorem findStringSubmatchIndex_eq (s : String) :
    findStringSubmatchIndex s = some (splitLogMsg s) := by
  simp [findStringSubmatchIndex, logMessageRE_rmatch]

/-! ## Unfolding lemmas for the reduction recursion -/

theorem gms_zero (sp : spanWithIndex) (all : List RecordedSpan) (seen : List Nat) :
    getMessagesForSubtrace 0 sp all seen =
      if sp.span.spanID ∈ seen then .error (.duplicateSpan sp.span.spanID)
      else .error .outOfFuel := rfl

theorem gms_succ (n : Nat) (sp : spanWithIndex) (all : List RecordedSpan) (seen : List Nat) :
    getMessagesForSubtrace (n + 1) sp all seen =
      if sp.span.spanID ∈ seen then .error (.duplicateSpan sp.span.spanID)
      else
        match mergeSpanLogs n sp all sp.span.logs 0
            (getOrderedChildSpans sp.span.spanID all) (sp.span.spanID :: seen) with
        | .error e => .error e
        | .ok (rows, seen2) =>
          .ok ({ timestamp := sp.span.startTime
                 msg := spanStartMsg sp.span.operation
                 span := sp
                 index := 0 } :: rows, seen2) := rfl

theorem merge_zero (sp : spanWithIndex) (all : List RecordedSpan)
    (logs : List RecordedSpan_LogRecord) (i : Nat) (cs : List spanWithIndex)
    (seen : List Nat) :
    mergeSpanLogs 0 sp all logs i cs seen = .error .outOfFuel := rfl

theorem merge_nil_nil (n : Nat) (sp : spanWithIndex) (all : List RecordedSpan)
    (i : Nat) (seen : List Nat) :
    mergeSpanLogs (n + 1) sp all [] i [] seen = .ok ([], seen) := rfl

theorem merge_cons_nil (n : Nat) (sp : spanWithIndex) (all : List RecordedSpan)
    (l : RecordedSpan_LogRecord) (ls : List RecordedSpan_LogRecord) (i : Nat)
    (seen : List Nat) :
    mergeSpanLogs (n + 1) sp all (l :: ls) i [] seen =
      (if l.time < maxTime then
        match mergeSpanLogs n sp all ls (i + 1) [] seen with
        | .error e => .error e
        | .ok (rows, seen2) =>
          .ok ({ timestamp := l.time
                 msg := extractMsgFromRecord l
                 span := sp
                 index := i + 1 } :: rows, seen2)
      else .error .indexOutOfRange) := rfl

theorem merge_nil_cons (n : Nat) (sp : spanWithIndex) (all : List RecordedSpan)
    (i : Nat) (c : spanWithIndex) (cs : List spanWithIndex) (seen : List Nat) :
    mergeSpanLogs (n + 1) sp all [] i (c :: cs) seen =
      (if maxTime < c.span.startTime then .error .indexOutOfRange
      else
        match getMessagesForSubtrace n c all seen with
        | .error e => .error e
        | .ok (childRows, seen2) =>
          match mergeSpanLogs n sp all [] i cs seen2 with
          | .error e => .error e
          | .ok (rows, seen3) => .ok (childRows ++ rows, seen3)) := rfl

theorem merge_cons_cons (n : Nat) (sp : spanWithIndex) (all : List RecordedSpan)
    (l : RecordedSpan_LogRecord) (ls : List RecordedSpan_LogRecord) (i : Nat)
    (c : spanWithIndex) (cs : List spanWithIndex) (seen : List Nat) :
    mergeSpanLogs (n + 1) sp all (l :: ls) i (c :: cs) seen =
      (if l.time < c.span.startTime then
        match mergeSpanLogs n sp all ls (i + 1) (c :: cs) seen with
        | .error e => .error e
        | .ok (rows, seen2) =>
          .ok ({ timestamp := l.time
                 msg := extractMsgFromRecord l
                 span := sp
                 index := i + 1 } :: rows, seen2)
      else
        match getMessagesForSubtrace n c all seen with
        | .error e => .error e
        | .ok (childRows, seen2) =>
          match mergeSpanLogs n sp all (l :: ls) i cs seen2 with
          | .error e => .error e
          | .ok (rows, seen3) => .ok (childRows ++ rows, seen3)) := rfl

/-! ## The seen set only grows -/

theorem seen_mono :
    ∀ fuel : Nat,
      (∀ sp all seen rows seen2,
        getMessagesForSubtrace fuel sp all seen = .ok (rows, seen2) →
        ∀ x ∈ seen, x ∈ seen2) ∧
      (∀ sp all logs i cs seen rows seen2,
        mergeSpanLogs fuel sp all logs i cs seen = .ok (rows, seen2) →
        ∀ x ∈ seen, x ∈ seen2) := by
  intro fuel
  induction fuel with
  | zero =>
    constructor
    · intro sp all seen rows seen2 h
      rw [gms_zero] at h
      split at h <;> exact absurd h (by simp)
    · intro sp all logs i cs seen rows seen2 h
      rw [merge_zero] at h
      exact absurd h (by simp)
  | succ n ih =>
    constructor
    · intro sp all seen rows seen2 h
      rw [gms_succ] at h
      split at h
      · exact absurd h (by simp)
      · split at h
        · exact absurd h (by simp)
        · rename_i rows1 seen1 hmerge
          cases h
          intro x hx
          exact ih.2 _ _ _ _ _ _ _ _ hmerge x (List.mem_cons_of_mem _ hx)
    · intro sp all logs i cs seen rows seen2 h
      cases logs with
      | nil =>
        cases cs with
        | nil =>
          rw [merge_nil_nil] at h
          cases h
          exact fun x hx => hx
        | cons c cs =>
          rw [merge_nil_cons] at h
          split at h
          · exact absurd h (by simp)
          · split at h
            · exact absurd h (by simp)
            · rename_i childRows seen1 hchild
              split at h
              · exact absurd h (by simp)
              · rename_i rows1 seen3 hrec
                cases h
                intro x hx
                exact ih.2 _ _ _ _ _ _ _ _ hrec x (ih.1 _ _ _ _ _ hchild x hx)
      | cons l ls =>
        cases cs with
        | nil =>
          rw [merge_cons_nil] at h
          split at h
          · split at h
            · exact absurd h (by simp)
            · rename_i rows1 seen1 hrec
              cases h
              exact ih.2 _ _ _ _ _ _ _ _ hrec
          · exact absurd h (by simp)
        | cons c cs =>
          rw [merge_cons_cons] at h
          split at h
          · split at h
            · exact absurd h (by simp)
            · rename_i rows1 seen1 hrec
              cases h
              exact ih.2 _ _ _ _ _ _ _ _ hrec
          · split at h
            · exact absurd h (by simp)
            · rename_i childRows seen1 hchild
              split at h
              · exact absurd h (by simp)
              · rename_i rows1 seen3 hrec
                cases h
                intro x hx
                exact ih.2 _ _ _ _ _ _ _ _ hrec x (ih.1 _ _ _ _ _ hchild x hx)

theorem gms_seen_mono {fuel : Nat} {sp : spanWithIndex} {all : List RecordedSpan}
    {seen rows seen2} (h : getMessagesForSubtrace fuel sp all seen = .ok (rows, seen2)) :
    ∀ x ∈ seen, x ∈ seen2 :=
  (seen_mono fuel).1 sp all seen rows seen2 h

theorem merge_seen_mono {fuel : Nat} {sp : spanWithIndex} {all : List RecordedSpan}
    {logs i cs seen rows seen2}
    (h : mergeSpanLogs fuel sp all logs i cs seen = .ok (rows, seen2)) :
    ∀ x ∈ seen, x ∈ seen2 :=
  (seen_mono fuel).2 sp all logs i cs seen rows seen2 h

/-- A successful subtrace expansion marks its root span as seen. -/
theorem gms_marks_root {fuel : Nat} {sp : spanWithIndex} {all : List RecordedSpan}
    {seen rows seen2} (h : getMessagesForSubtrace fuel sp all seen = .ok (rows, seen2)) :
    sp.span.spanID ∈ seen2 := by
  cases fuel with
  | zero =>
    rw [gms_zero] at h
    split at h <;> exact absurd h (by simp)
  | succ n =>
    rw [gms_succ] at h
    split at h
    · exact absurd h (by simp)
    · split at h
      · exact absurd h (by simp)
      · rename_i rows1 seen1 hmerge
        cases h
        exact merge_seen_mono hmerge _ (List.mem_cons_self _ _)

/-- A successful subtrace expansion requires its root to be unseen. -/
theorem gms_ok_not_seen {fuel : Nat} {sp : spanWithIndex} {all : List RecordedSpan}
    {seen rows seen2} (h : getMessagesForSubtrace fuel sp all seen = .ok (rows, seen2)) :
    sp.span.spanID ∉ seen := by
  intro hmem
  cases fuel with
  | zero =>
    rw [gms_zero, if_pos hmem] at h
    exact absurd h (by simp)
  | succ n =>
    rw [gms_succ, if_pos hmem] at h
    exact absurd h (by simp)

/-! ## Child subtrees appear as contiguous blocks in the merge output -/

theorem getOrderedChildSpans_wf (pid : Nat) (all : List RecordedSpan) :
    ∀ c ∈ getOrderedChildSpans pid all,
      all[c.index]? = some c.span ∧ c.span.parentSpanID = pid := by
  intro c hc
  rw [getOrderedChildSpans] at hc
  simp only [List.mem_map, List.mem_filter] at hc
  obtain ⟨⟨k, sp⟩, ⟨henum, hp⟩, rfl⟩ := hc
  refine ⟨List.mem_enum_iff_getElem?.1 henum, ?_⟩
  simpa using hp

/-- Every child listed in the merge's child cursor is expanded by one full
`getMessagesForSubtrace` call whose rows appear contiguously in the merge
output; the expansion starts from a seen set extending the merge's entry
seen set, and its exit seen set is contained in the merge's final one. -/
theorem merge_child_block :
    ∀ fuel : Nat, ∀ (sp : spanWithIndex) (all : List RecordedSpan)
      (logs : List RecordedSpan_LogRecord) (i : Nat) (cs : List spanWithIndex)
      (seen : List Nat) (rows : List logRecordRow) (seen2 : List Nat),
      mergeSpanLogs fuel sp all logs i cs seen = .ok (rows, seen2) →
      ∀ (cs1 : List spanWithIndex) (c : spanWithIndex) (cs2 : List spanWithIndex),
        cs = cs1 ++ c :: cs2 →
      ∃ f1 s1 s1' bc u v,
        getMessagesForSubtrace f1 c all s1 = .ok (bc, s1') ∧
        rows = u ++ bc ++ v ∧
        (∀ x ∈ seen, x ∈ s1) ∧ (∀ x ∈ s1', x ∈ seen2) := by
  intro fuel
  induction fuel with
  | zero =>
    intro sp all logs i cs seen rows seen2 h cs1 c cs2 hcs
    rw [merge_zero] at h
    exact absurd h (by simp)
  | succ n ih =>
    intro sp all logs i cs seen rows seen2 h cs1 c cs2 hcs
    cases logs with
    | nil =>
      cases cs with
      | nil => exact absurd hcs (by simp)
      | cons c0 cs' =>
        rw [merge_nil_cons] at h
        split at h
        · exact absurd h (by simp)
        · split at h
          · exact absurd h (by simp)
          · rename_i childRows seen1 hchild
            split at h
            · exact absurd h (by simp)
            · rename_i rows1 seen3 hrec
              cases h
              cases cs1 with
              | nil =>
                simp only [List.nil_append] at hcs
                injection hcs with h1 h2
                subst h1
                refine ⟨n, seen, seen1, childRows, [], rows1, hchild, by simp,
                  fun x hx => hx, merge_seen_mono hrec⟩
              | cons c1 cs1' =>
                simp only [List.cons_append] at hcs
                injection hcs with h1 h2
                obtain ⟨f1, s1, s1', bc, u, v, hgms, hr, hentry, hexit⟩ :=
                  ih _ _ _ _ _ _ _ _ hrec cs1' c cs2 h2
                exact ⟨f1, s1, s1', bc, childRows ++ u, v, hgms,
                  by rw [hr]; simp [List.append_assoc],
                  fun x hx => hentry x (gms_seen_mono hchild x hx), hexit⟩
    | cons l ls =>
      cases cs with
      | nil => exact absurd hcs (by simp)
      | cons c0 cs' =>
        rw [merge_cons_cons] at h
        split at h
        · split at h
          · exact absurd h (by simp)
          · rename_i rows1 seen1 hrec
            cases h
            obtain ⟨f1, s1, s1', bc, u, v, hgms, hr, hentry, hexit⟩ :=
              ih _ _ _ _ _ _ _ _ hrec cs1 c cs2 hcs
            refine ⟨f1, s1, s1', bc,
              { timestamp := l.time, msg := extractMsgFromRecord l,
                span := sp, index := i + 1 } :: u, v, hgms, by rw [hr]; rfl,
              hentry, hexit⟩
        · split at h
          · exact absurd h (by simp)
          · rename_i childRows seen1 hchild
            split at h
            · exact absurd h (by simp)
            · rename_i rows1 seen3 hrec
              cases h
              cases cs1 with
              | nil =>
                simp only [List.nil_append] at hcs
                injection hcs with h1 h2
                subst h1
                refine ⟨n, seen, seen1, childRows, [], rows1, hchild, by simp,
                  fun x hx => hx, merge_seen_mono hrec⟩
              | cons c1 cs1' =>
                simp only [List.cons_append] at hcs
                injection hcs with h1 h2
                obtain ⟨f1, s1, s1', bc, u, v, hgms, hr, hentry, hexit⟩ :=
                  ih _ _ _ _ _ _ _ _ hrec cs1' c cs2 h2
                exact ⟨f1, s1, s1', bc, childRows ++ u, v, hgms,
                  by rw [hr]; simp [List.append_assoc],
                  fun x hx => hentry x (gms_seen_mono hchild x hx), hexit⟩

/-- Two children listed in order in the merge's child cursor are expanded
as two contiguous blocks appearing in that order in the merge output, the
first expansion's exit seen set feeding (monotonically) into the second's
entry. -/
theorem merge_two_child_blocks :
    ∀ fuel : Nat, ∀ (sp : spanWithIndex) (all : List RecordedSpan)
      (logs : List RecordedSpan_LogRecord) (i : Nat) (cs : List spanWithIndex)
      (seen : List Nat) (rows : List logRecordRow) (seen2 : List Nat),
      mergeSpanLogs fuel sp all logs i cs seen = .ok (rows, seen2) →
      ∀ (cs1 : List spanWithIndex) (a : spanWithIndex) (cs2 : List spanWithIndex)
        (b : spanWithIndex) (cs3 : List spanWithIndex),
        cs = cs1 ++ a :: cs2 ++ b :: cs3 →
      ∃ fa sa sa' ba fb sb sb' bb u v w,
        getMessagesForSubtrace fa a all sa = .ok (ba, sa') ∧
        getMessagesForSubtrace fb b all sb = .ok (bb, sb') ∧
        (∀ x ∈ sa', x ∈ sb) ∧
        rows = u ++ ba ++ v ++ bb ++ w := by
  intro fuel
  induction fuel with
  | zero =>
    intro sp all logs i cs seen rows seen2 h cs1 a cs2 b cs3 hcs
    rw [merge_zero] at h
    exact absurd h (by simp)
  | succ n ih =>
    intro sp all logs i cs seen rows seen2 h cs1 a cs2 b cs3 hcs
    cases logs with
    | nil =>
      cases cs with
      | nil => exact absurd hcs (by simp)
      | cons c0 cs' =>
        rw [merge_nil_cons] at h
        split at h
        · exact absurd h (by simp)
        · split at h
          · exact absurd h (by simp)
          · rename_i childRows seen1 hchild
            split at h
            · exact absurd h (by simp)
            · rename_i rows1 seen3 hrec
              cases h
              cases cs1 with
              | nil =>
                simp only [List.nil_append] at hcs
                injection hcs with h1 h2
                subst h1
                obtain ⟨fb, sb, sb', bb, u, v, hgmsb, hr, hentry, _⟩ :=
                  merge_child_block _ _ _ _ _ _ _ _ _ hrec cs2 b cs3 h2
                exact ⟨n, seen, seen1, childRows, fb, sb, sb', bb, [], u, v,
                  hchild, hgmsb, hentry, by rw [hr]; simp [List.append_assoc]⟩
              | cons c1 cs1' =>
                simp only [List.cons_append] at hcs
                injection hcs with h1 h2
                obtain ⟨fa, sa, sa', ba, fb, sb, sb', bb, u, v, w, hga, hgb, hab, hr⟩ :=
                  ih _ _ _ _ _ _ _ _ hrec cs1' a cs2 b cs3 h2
                exact ⟨fa, sa, sa', ba, fb, sb, sb', bb, childRows ++ u, v, w, hga, hgb,
                  hab, by rw [hr]; simp [List.append_assoc]⟩
    | cons l ls =>
      cases cs with
      | nil => exact absurd hcs (by simp)
      | cons c0 cs' =>
        rw [merge_cons_cons] at h
        split at h
        · split at h
          · exact absurd h (by simp)
          · rename_i rows1 seen1 hrec
            cases h
            obtain ⟨fa, sa, sa', ba, fb, sb, sb', bb, u, v, w, hga, hgb, hab, hr⟩ :=
              ih _ _ _ _ _ _ _ _ hrec cs1 a cs2 b cs3 hcs
            exact ⟨fa, sa, sa', ba, fb, sb, sb', bb,
              { timestamp := l.time, msg := extractMsgFromRecord l,
                span := sp, index := i + 1 } :: u, v, w, hga, hgb, hab,
              by rw [hr]; rfl⟩
        · split at h
          · exact absurd h (by simp)
          · rename_i childRows seen1 hchild
            split at h
            · exact absurd h (by simp)
            · rename_i rows1 seen3 hrec
              cases h
              cases cs1 with
              | nil =>
                simp only [List.nil_append] at hcs
                injection hcs with h1 h2
                subst h1
                obtain ⟨fb, sb, sb', bb, u, v, hgmsb, hr, hentry, _⟩ :=
                  merge_child_block _ _ _ _ _ _ _ _ _ hrec cs2 b cs3 h2
                exact ⟨n, seen, seen1, childRows, fb, sb, sb', bb, [], u, v,
                  hchild, hgmsb, hentry, by rw [hr]; simp [List.append_assoc]⟩
              | cons c1 cs1' =>
                simp only [List.cons_append] at hcs
                injection hcs with h1 h2
                obtain ⟨fa, sa, sa', ba, fb, sb, sb', bb, u, v, w, hga, hgb, hab, hr⟩ :=
                  ih _ _ _ _ _ _ _ _ hrec cs1' a cs2 b cs3 h2
                exact ⟨fa, sa, sa', ba, fb, sb, sb', bb, childRows ++ u, v, w, hga, hgb,
                  hab, by rw [hr]; simp [List.append_assoc]⟩

theorem toTraceRow_eq (lrr : logRecordRow) : toTraceRow lrr = .ok (rowOf lrr) := by
  rw [toTraceRow, findStringSubmatchIndex_eq]
  rfl

theorem rowsToTable_eq (l : List logRecordRow) : rowsToTable l = .ok (l.map rowOf) := by
  induction l with
  | nil => rfl
  | cons lrr rest ih => rw [rowsToTable, toTraceRow_eq, ih, List.map_cons]

/-- The reduction, with the row transformation made explicit: it fails
exactly when the top-level span walk fails, and otherwise maps every
collected log message to its table row. -/
theorem generateSessionTraceVTable_eq (spans : List RecordedSpan) :
    generateSessionTraceVTable spans =
      match processSpans (traceFuel spans) spans spans.enum [] with
      | .error e => .error e
      | .ok allLogs => .ok (allLogs.map rowOf) := by
  rw [generateSessionTraceVTable]
  cases processSpans (traceFuel spans) spans spans.enum [] with
  | error e => rfl
  | ok allLogs => exact rowsToTable_eq allLogs

/-! ## Locating children inside the ordered child list -/

theorem enumFrom_split1 {α : Type} :
    ∀ (l : List α) (n i : Nat) (x : α), l[i]? = some x →
      ∃ u v, List.enumFrom n l = u ++ (n + i, x) :: v := by
  intro l
  induction l with
  | nil =>
    intro n i x hx
    simp at hx
  | cons y ys ih =>
    intro n i x hx
    cases i with
    | zero =>
      simp only [List.getElem?_cons_zero, Option.some_inj] at hx
      subst hx
      exact ⟨[], List.enumFrom (n + 1) ys, by simp [List.enumFrom]⟩
    | succ i2 =>
      have hx2 : ys[i2]? = some x := by simpa using hx
      obtain ⟨u, v, hu⟩ := ih (n + 1) i2 x hx2
      refine ⟨(n, y) :: u, v, ?_⟩
      have harith : n + (i2 + 1) = n + 1 + i2 := by omega
      simp only [List.enumFrom]
      rw [hu, harith]
      simp

theorem enumFrom_split2 {α : Type} :
    ∀ (l : List α) (n i j : Nat) (a b : α), i < j →
      l[i]? = some a → l[j]? = some b →
      ∃ u v w, List.enumFrom n l = u ++ (n + i, a) :: v ++ (n + j, b) :: w := by
  intro l
  induction l with
  | nil =>
    intro n i j a b hij ha hb
    simp at ha
  | cons y ys ih =>
    intro n i j a b hij ha hb
    cases i with
    | zero =>
      simp only [List.getElem?_cons_zero, Option.some_inj] at ha
      subst ha
      cases j with
      | zero => omega
      | succ j2 =>
        have hb2 : ys[j2]? = some b := by simpa using hb
        obtain ⟨v, w, hv⟩ := enumFrom_split1 ys (n + 1) j2 b hb2
        refine ⟨[], v, w, ?_⟩
        have harith : n + (j2 + 1) = n + 1 + j2 := by omega
        simp only [List.enumFrom, List.nil_append]
        rw [hv, harith]
        simp
    | succ i2 =>
      cases j with
      | zero => omega
      | succ j2 =>
        obtain ⟨u, v, w, hu⟩ :=
          ih (n + 1) i2 j2 a b (by omega) (by simpa using ha) (by simpa using hb)
        refine ⟨(n, y) :: u, v, w, ?_⟩
        have ha2 : n + (i2 + 1) = n + 1 + i2 := by omega
        have ha3 : n + (j2 + 1) = n + 1 + j2 := by omega
        simp only [List.enumFrom]
        rw [hu, ha2, ha3]
        simp

/-- Two spans with the same parent occupy ordered positions inside the
parent's child list, in input order. -/
theorem getOrderedChildSpans_split (pid : Nat) (all : List RecordedSpan) (i j : Nat)
    (a b : RecordedSpan) (hij : i < j) (ha : all[i]? = some a) (hb : all[j]? = some b)
    (hpa : a.parentSpanID = pid) (hpb : b.parentSpanID = pid) :
    ∃ cs1 cs2 cs3, getOrderedChildSpans pid all =
      cs1 ++ { span := a, index := i } :: cs2 ++ { span := b, index := j } :: cs3 := by
  obtain ⟨u, v, w, hsplit⟩ := enumFrom_split2 all 0 i j a b hij ha hb
  have henum : all.enum = u ++ (i, a) :: v ++ (j, b) :: w := by simpa using hsplit
  rw [getOrderedChildSpans, henum]
  simp only [List.filter_append, List.filter_cons, hpa, hpb, decide_True, List.map_append,
    List.map_cons]
  exact ⟨_, _, _, rfl⟩

theorem goodSeen_preserved :
    ∀ fuel : Nat,
      (∀ sp all seen rows seen2,
        getMessagesForSubtrace fuel sp all seen = .ok (rows, seen2) →
        all[sp.index]? = some sp.span → goodSeen all seen → goodSeen all seen2) ∧
      (∀ sp all logs i cs seen rows seen2,
        mergeSpanLogs fuel sp all logs i cs seen = .ok (rows, seen2) →
        (∀ c ∈ cs, all[c.index]? = some c.span) → goodSeen all seen →
        goodSeen all seen2) := by
  intro fuel
  induction fuel with
  | zero =>
    constructor
    · intro sp all seen rows seen2 h
      rw [gms_zero] at h
      split at h <;> exact absurd h (by simp)
    · intro sp all logs i cs seen rows seen2 h
      rw [merge_zero] at h
      exact absurd h (by simp)
  | succ n ih =>
    constructor
    · intro sp all seen rows seen2 h hwf hgood
      have horig := h
      rw [gms_succ] at h
      split at h
      · exact absurd h (by simp)
      · split at h
        · exact absurd h (by simp)
        · rename_i rows1 seen1 hmerge
          cases h
          refine ih.2 _ _ _ _ _ _ _ _ hmerge
            (fun c hc => (getOrderedChildSpans_wf _ _ c hc).1) ?_
          intro x hx
          rcases List.mem_cons.1 hx with rfl | hx2
          · exact ⟨sp.index, sp.span, n + 1, seen, _, _, hwf, rfl, horig⟩
          · exact hgood x hx2
    · intro sp all logs i cs seen rows seen2 h hwf hgood
      cases logs with
      | nil =>
        cases cs with
        | nil =>
          rw [merge_nil_nil] at h
          cases h
          exact hgood
        | cons c cs2 =>
          rw [merge_nil_cons] at h
          split at h
          · exact absurd h (by simp)
          · split at h
            · exact absurd h (by simp)
            · rename_i childRows seen1 hchild
              split at h
              · exact absurd h (by simp)
              · rename_i rows1 seen3 hrec
                cases h
                exact ih.2 _ _ _ _ _ _ _ _ hrec
                  (fun c2 hc2 => hwf c2 (List.mem_cons_of_mem _ hc2))
                  (ih.1 _ _ _ _ _ hchild (hwf c (List.mem_cons_self _ _)) hgood)
      | cons l ls =>
        cases cs with
        | nil =>
          rw [merge_cons_nil] at h
          split at h
          · split at h
            · exact absurd h (by simp)
            · rename_i rows1 seen1 hrec
              cases h
              exact ih.2 _ _ _ _ _ _ _ _ hrec hwf hgood
          · exact absurd h (by simp)
        | cons c cs2 =>
          rw [merge_cons_cons] at h
          split at h
          · split at h
            · exact absurd h (by simp)
            · rename_i rows1 seen1 hrec
              cases h
              exact ih.2 _ _ _ _ _ _ _ _ hrec hwf hgood
          · split at h
            · exact absurd h (by simp)
            · rename_i childRows seen1 hchild
              split at h
              · exact absurd h (by simp)
              · rename_i rows1 seen3 hrec
                cases h
                exact ih.2 _ _ _ _ _ _ _ _ hrec
                  (fun c2 hc2 => hwf c2 (List.mem_cons_of_mem _ hc2))
                  (ih.1 _ _ _ _ _ hchild (hwf c (List.mem_cons_self _ _)) hgood)

/-- Under a successful top-level walk, every span listed in the remaining
work is expanded — as a root or inside an earlier subtree — by a successful
`getMessagesForSubtrace` call on an input span carrying its identifier. -/
theorem processSpans_processed (fuel : Nat) (all : List RecordedSpan) :
    ∀ (rest : List (Nat × RecordedSpan)) (seen : List Nat) (rows : List logRecordRow),
      processSpans fuel all rest seen = .ok rows →
      (∀ p ∈ rest, all[p.1]? = some p.2) → goodSeen all seen →
      ∀ p ∈ rest, ∃ (m : Nat) (spm : RecordedSpan) (f : Nat) (s s2 : List Nat)
        (rs : List logRecordRow),
        all[m]? = some spm ∧ spm.spanID = p.2.spanID ∧
        getMessagesForSubtrace f { span := spm, index := m } all s = .ok (rs, s2) := by
  intro rest
  induction rest with
  | nil =>
    intro seen rows h hwf hgood p hp
    simp at hp
  | cons q rest ih =>
    obtain ⟨spanIdx, span⟩ := q
    intro seen rows h hwf hgood p hp
    rw [processSpans] at h
    split at h
    · rename_i hmem
      rcases List.mem_cons.1 hp with rfl | hp2
      · obtain ⟨m, spm, f, s, s2, rs, h1, h2, h3⟩ := hgood _ hmem
        exact ⟨m, spm, f, s, s2, rs, h1, h2, h3⟩
      · exact ih _ _ h (fun p2 hp2b => hwf p2 (List.mem_cons_of_mem _ hp2b)) hgood p hp2
    · split at h
      · exact absurd h (by simp)
      · rename_i msgs seen2 hgms
        split at h
        · exact absurd h (by simp)
        · rename_i more hrec
          have hwfhead : all[spanIdx]? = some span := hwf _ (List.mem_cons_self _ _)
          have hgood2 : goodSeen all seen2 :=
            (goodSeen_preserved fuel).1 _ _ _ _ _ hgms hwfhead hgood
          rcases List.mem_cons.1 hp with rfl | hp2
          · exact ⟨spanIdx, span, fuel, seen, seen2, msgs, hwfhead, rfl, hgms⟩
          · exact ih _ _ hrec (fun p2 hp2b => hwf p2 (List.mem_cons_of_mem _ hp2b))
              hgood2 p hp2

/-! ## Claim C1, amended: duplicates reached as children fail -/

/-- A successfully expanded span cannot have two distinct children sharing
one span identifier: the first child's expansion marks the identifier seen
and the second child's expansion then fails. -/
theorem dup_children_contra (spans : List RecordedSpan) (fuel : Nat)
    (sp : spanWithIndex) (seen : List Nat) (rows : List logRecordRow)
    (seen2 : List Nat)
    (hgms : getMessagesForSubtrace fuel sp spans seen = .ok (rows, seen2))
    (i j : Nat) (a b : RecordedSpan) (hij : i < j)
    (ha : spans[i]? = some a) (hb : spans[j]? = some b)
    (hid : a.spanID = b.spanID)
    (hpa : a.parentSpanID = sp.span.spanID)
    (hpb : b.parentSpanID = sp.span.spanID) : False := by
  cases fuel with
  | zero =>
    rw [gms_zero] at hgms
    split at hgms <;> exact absurd hgms (by simp)
  | succ n =>
    rw [gms_succ] at hgms
    split at hgms
    · exact absurd hgms (by simp)
    · split at hgms
      · exact absurd hgms (by simp)
      · rename_i rows1 seen1 hmerge
        obtain ⟨cs1, cs2, cs3, hcs⟩ :=
          getOrderedChildSpans_split sp.span.spanID spans i j a b hij ha hb hpa hpb
        obtain ⟨fa, sa, sa2, ba, fb, sb, sb2, bb, u, v, w, hga, hgb, hab, _⟩ :=
          merge_two_child_blocks n sp spans sp.span.logs 0 _ _ rows1 seen1 hmerge
            cs1 { span := a, index := i } cs2 { span := b, index := j } cs3 hcs
        have hamem : a.spanID ∈ sa2 := gms_marks_root hga
        have hbnotin : b.spanID ∉ sb := gms_ok_not_seen hgb
        exact hbnotin (hid ▸ hab _ hamem)

/-- Claim C1, amended: when two distinct spans share a span identifier and
their common parent identifier is carried by some input span, the reduction
fails.  (A duplicate whose parent identifier belongs to no input span is
reached only at the top level, where the walk silently skips it — the
counterexample above.) -/
theorem claim_C1_amended (spans : List RecordedSpan) (i j k : Nat)
    (a b q : RecordedSpan) (hij : i ≠ j)
    (ha : spans[i]? = some a) (hb : spans[j]? = some b)
    (hid : a.spanID = b.spanID) (hpar : a.parentSpanID = b.parentSpanID)
    (hq : spans[k]? = some q) (hqid : q.spanID = a.parentSpanID) :
    ∃ e, generateSessionTraceVTable spans = .error e := by
  cases hgen : generateSessionTraceVTable spans with
  | error e => exact ⟨e, rfl⟩
  | ok out =>
    exfalso
    rw [generateSessionTraceVTable_eq] at hgen
    revert hgen
    cases hps : processSpans (traceFuel spans) spans spans.enum [] with
    | error e => intro hgen; exact absurd hgen (by simp)
    | ok allLogs =>
      intro _
      have henumwf : ∀ p ∈ spans.enum, spans[p.1]? = some p.2 := by
        intro p hp
        exact List.mem_enum_iff_getElem?.1 (by cases p; exact hp)
      have hqenum : (k, q) ∈ spans.enum := List.mem_enum_iff_getElem?.2 hq
      obtain ⟨m, spm, f, s, s2, rs, hm, hmid, hmgms⟩ :=
        processSpans_processed (traceFuel spans) spans spans.enum [] allLogs hps
          henumwf (fun x hx => absurd hx (List.not_mem_nil x)) (k, q) hqenum
      have hpa : a.parentSpanID = spm.spanID := by rw [hmid, hqid]
      have hpb : b.parentSpanID = spm.spanID := by rw [← hpar, hpa]
      rcases Nat.lt_or_ge i j with hlt | hge
      · exact dup_children_contra spans f { span := spm, index := m } s rs s2 hmgms
          i j a b hlt ha hb hid hpa hpb
      · have hlt2 : j < i := Nat.lt_of_le_of_ne hge (fun e => hij e.symm)
        exact dup_children_contra spans f { span := spm, index := m } s rs s2 hmgms
          j i b a hlt2 hb ha hid.symm hpb hpa

theorem claim_C1_amended_witness :
    (c2Input ++ [ { spanID := 2, parentSpanID := 1, operation := "d", startTime := 7,
                    duration := 1, logs := [] } ])[1]? =
      some c2Child ∧
    ∃ e, generateSessionTraceVTable
        (c2Input ++ [ { spanID := 2, parentSpanID := 1, operation := "d", startTime := 7,
                        duration := 1, logs := [] } ]) = .error e := by
  refine ⟨by decide, ?_⟩
  exact claim_C1_amended _ 1 2 0 c2Child
    { spanID := 2, parentSpanID := 1, operation := "d", startTime := 7,
      duration := 1, logs := [] }
    c2Parent (by decide) (by decide) (by decide) (by decide) (by decide) (by decide)
    (by decide)

theorem rows_shape :
    ∀ fuel : Nat,
      (∀ sp all seen rows seen2,
        getMessagesForSubtrace fuel sp all seen = .ok (rows, seen2) →
        all[sp.index]? = some sp.span →
        rowsWF all rows ∧ startRowsDelta rows seen seen2 ∧ startRowsNodup rows ∧
          rowsHaveStart rows) ∧
      (∀ sp all logs i cs seen rows seen2,
        mergeSpanLogs fuel sp all logs i cs seen = .ok (rows, seen2) →
        all[sp.index]? = some sp.span →
        (∀ c ∈ cs, all[c.index]? = some c.span) →
        rowsWF all rows ∧ startRowsDelta rows seen seen2 ∧ startRowsNodup rows ∧
          (∀ r ∈ rows, r.span = sp ∨ ∃ r0 ∈ rows, r0.index = 0 ∧ r0.span = r.span)) := by
  intro fuel
  induction fuel with
  | zero =>
    constructor
    · intro sp all seen rows seen2 h
      rw [gms_zero] at h
      split at h <;> exact absurd h (by simp)
    · intro sp all logs i cs seen rows seen2 h
      rw [merge_zero] at h
      exact absurd h (by simp)
  | succ n ih =>
    constructor
    · intro sp all seen rows seen2 h hwf
      rw [gms_succ] at h
      split at h
      · exact absurd h (by simp)
      · rename_i hnotseen
        split at h
        · exact absurd h (by simp)
        · rename_i rows1 seen1 hmerge
          cases h
          obtain ⟨hWF, hDelta, hNodup, hStart⟩ :=
            ih.2 _ _ _ _ _ _ _ _ hmerge hwf
              (fun c hc => (getOrderedChildSpans_wf _ _ c hc).1)
          have hspin := merge_seen_mono hmerge _ (List.mem_cons_self _ _)
          refine ⟨?_, ?_, ?_, ?_⟩
          · intro r hr
            rcases List.mem_cons.1 hr with rfl | hr2
            · exact hwf
            · exact hWF r hr2
          · intro r hr hidx
            rcases List.mem_cons.1 hr with rfl | hr2
            · exact ⟨hspin, hnotseen⟩
            · obtain ⟨hin, hnin⟩ := hDelta r hr2 hidx
              exact ⟨hin, fun hmem => hnin (List.mem_cons_of_mem _ hmem)⟩
          · rw [startRowsNodup, List.filter_cons_of_pos (by simp), List.map_cons]
            refine List.nodup_cons.2 ⟨?_, hNodup⟩
            intro hmem
            simp only [List.mem_map, List.mem_filter] at hmem
            obtain ⟨r, ⟨hr2, hr0⟩, hrid⟩ := hmem
            have := (hDelta r hr2 (by simpa using hr0)).2
            exact this (hrid ▸ List.mem_cons_self _ _)
          · intro r hr
            rcases List.mem_cons.1 hr with rfl | hr2
            · exact ⟨_, List.mem_cons_self _ _, rfl, rfl⟩
            · rcases hStart r hr2 with hsp | ⟨r0, hr0, h0, hspan⟩
              · exact ⟨_, List.mem_cons_self _ _, rfl, hsp ▸ rfl⟩
              · exact ⟨r0, List.mem_cons_of_mem _ hr0, h0, hspan⟩
    · intro sp all logs i cs seen rows seen2 h hwf hwfcs
      cases logs with
      | nil =>
        cases cs with
        | nil =>
          rw [merge_nil_nil] at h
          cases h
          exact ⟨fun r hr => absurd hr (List.not_mem_nil r),
            fun r hr => absurd hr (List.not_mem_nil r), by simp [startRowsNodup],
            fun r hr => absurd hr (List.not_mem_nil r)⟩
        | cons c cs2 =>
          rw [merge_nil_cons] at h
          split at h
          · exact absurd h (by simp)
          · split at h
            · exact absurd h (by simp)
            · rename_i childRows seen1 hchild
              split at h
              · exact absurd h (by simp)
              · rename_i rows1 seen3 hrec
                cases h
                obtain ⟨cWF, cDelta, cNodup, cStart⟩ :=
                  ih.1 _ _ _ _ _ hchild (hwfcs c (List.mem_cons_self _ _))
                obtain ⟨rWF, rDelta, rNodup, rStart⟩ :=
                  ih.2 _ _ _ _ _ _ _ _ hrec hwf
                    (fun c2 hc2 => hwfcs c2 (List.mem_cons_of_mem _ hc2))
                have hs1s2 := merge_seen_mono hrec
                have hss1 := gms_seen_mono hchild
                refine ⟨?_, ?_, ?_, ?_⟩
                · intro r hr
                  rcases List.mem_append.1 hr with hr2 | hr2
                  · exact cWF r hr2
                  · exact rWF r hr2
                · intro r hr hidx
                  rcases List.mem_append.1 hr with hr2 | hr2
                  · obtain ⟨hin, hnin⟩ := cDelta r hr2 hidx
                    exact ⟨hs1s2 _ hin, hnin⟩
                  · obtain ⟨hin, hnin⟩ := rDelta r hr2 hidx
                    exact ⟨hin, fun hmem => hnin (hss1 _ hmem)⟩
                · rw [startRowsNodup, List.filter_append, List.map_append]
                  refine List.Nodup.append cNodup rNodup ?_
                  intro x hx hy
                  simp only [List.mem_map, List.mem_filter] at hx hy
                  obtain ⟨r, ⟨hr, hr0⟩, hrid⟩ := hx
                  obtain ⟨r2, ⟨hr2, hr20⟩, hr2id⟩ := hy
                  have h1 := (cDelta r hr (by simpa using hr0)).1
                  have h2 := (rDelta r2 hr2 (by simpa using hr20)).2
                  exact h2 (hr2id ▸ hrid ▸ h1)
                · intro r hr
                  rcases List.mem_append.1 hr with hr2 | hr2
                  · obtain ⟨r0, hr0, h0, hspan⟩ := cStart r hr2
                    exact Or.inr ⟨r0, List.mem_append_left _ hr0, h0, hspan⟩
                  · rcases rStart r hr2 with hsp | ⟨r0, hr0, h0, hspan⟩
                    · exact Or.inl hsp
                    · exact Or.inr ⟨r0, List.mem_append_right _ hr0, h0, hspan⟩
      | cons l ls =>
        cases cs with
        | nil =>
          rw [merge_cons_nil] at h
          split at h
          · split at h
            · exact absurd h (by simp)
            · rename_i rows1 seen1 hrec
              cases h
              obtain ⟨rWF, rDelta, rNodup, rStart⟩ :=
                ih.2 _ _ _ _ _ _ _ _ hrec hwf hwfcs
              refine ⟨?_, ?_, ?_, ?_⟩
              · intro r hr
                rcases List.mem_cons.1 hr with rfl | hr2
                · exact hwf
                · exact rWF r hr2
              · intro r hr hidx
                rcases List.mem_cons.1 hr with rfl | hr2
                · exact absurd hidx (by simp)
                · exact rDelta r hr2 hidx
              · rw [startRowsNodup, List.filter_cons_of_neg (by simp)]
                exact rNodup
              · intro r hr
                rcases List.mem_cons.1 hr with rfl | hr2
                · exact Or.inl rfl
                · rcases rStart r hr2 with hsp | ⟨r0, hr0, h0, hspan⟩
                  · exact Or.inl hsp
                  · exact Or.inr ⟨r0, List.mem_cons_of_mem _ hr0, h0, hspan⟩
          · exact absurd h (by simp)
        | cons c cs2 =>
          rw [merge_cons_cons] at h
          split at h
          · split at h
            · exact absurd h (by simp)
            · rename_i rows1 seen1 hrec
              cases h
              obtain ⟨rWF, rDelta, rNodup, rStart⟩ :=
                ih.2 _ _ _ _ _ _ _ _ hrec hwf hwfcs
              refine ⟨?_, ?_, ?_, ?_⟩
              · intro r hr
                rcases List.mem_cons.1 hr with rfl | hr2
                · exact hwf
                · exact rWF r hr2
              · intro r hr hidx
                rcases List.mem_cons.1 hr with rfl | hr2
                · exact absurd hidx (by simp)
                · exact rDelta r hr2 hidx
              · rw [startRowsNodup, List.filter_cons_of_neg (by simp)]
                exact rNodup
              · intro r hr
                rcases List.mem_cons.1 hr with rfl | hr2
                · exact Or.inl rfl
                · rcases rStart r hr2 with hsp | ⟨r0, hr0, h0, hspan⟩
                  · exact Or.inl hsp
                  · exact Or.inr ⟨r0, List.mem_cons_of_mem _ hr0, h0, hspan⟩
          · split at h
            · exact absurd h (by simp)
            · rename_i childRows seen1 hchild
              split at h
              · exact absurd h (by simp)
              · rename_i rows1 seen3 hrec
                cases h
                obtain ⟨cWF, cDelta, cNodup, cStart⟩ :=
                  ih.1 _ _ _ _ _ hchild (hwfcs c (List.mem_cons_self _ _))
                obtain ⟨rWF, rDelta, rNodup, rStart⟩ :=
                  ih.2 _ _ _ _ _ _ _ _ hrec hwf
                    (fun c2 hc2 => hwfcs c2 (List.mem_cons_of_mem _ hc2))
                have hs1s2 := merge_seen_mono hrec
                have hss1 := gms_seen_mono hchild
                refine ⟨?_, ?_, ?_, ?_⟩
                · intro r hr
                  rcases List.mem_append.1 hr with hr2 | hr2
                  · exact cWF r hr2
                  · exact rWF r hr2
                · intro r hr hidx
                  rcases List.mem_append.1 hr with hr2 | hr2
                  · obtain ⟨hin, hnin⟩ := cDelta r hr2 hidx
                    exact ⟨hs1s2 _ hin, hnin⟩
                  · obtain ⟨hin, hnin⟩ := rDelta r hr2 hidx
                    exact ⟨hin, fun hmem => hnin (hss1 _ hmem)⟩
                · rw [startRowsNodup, List.filter_append, List.map_append]
                  refine List.Nodup.append cNodup rNodup ?_
                  intro x hx hy
                  simp only [List.mem_map, List.mem_filter] at hx hy
                  obtain ⟨r, ⟨hr, hr0⟩, hrid⟩ := hx
                  obtain ⟨r2, ⟨hr2, hr20⟩, hr2id⟩ := hy
                  have h1 := (cDelta r hr (by simpa using hr0)).1
                  have h2 := (rDelta r2 hr2 (by simpa using hr20)).2
                  exact h2 (hr2id ▸ hrid ▸ h1)
                · intro r hr
                  rcases List.mem_append.1 hr with hr2 | hr2
                  · obtain ⟨r0, hr0, h0, hspan⟩ := cStart r hr2
                    exact Or.inr ⟨r0, List.mem_append_left _ hr0, h0, hspan⟩
                  · rcases rStart r hr2 with hsp | ⟨r0, hr0, h0, hspan⟩
                    · exact Or.inl hsp
                    · exact Or.inr ⟨r0, List.mem_append_right _ hr0, h0, hspan⟩

theorem processSpans_shape (fuel : Nat) (all : List RecordedSpan) :
    ∀ (rest : List (Nat × RecordedSpan)) (seen : List Nat) (rows : List logRecordRow),
      processSpans fuel all rest seen = .ok rows →
      (∀ p ∈ rest, all[p.1]? = some p.2) →
      rowsWF all rows ∧ startRowsNotSeen rows seen ∧ startRowsNodup rows ∧
        rowsHaveStart rows := by
  intro rest
  induction rest with
  | nil =>
    intro seen rows h hwf
    rw [processSpans] at h
    cases h
    exact ⟨fun r hr => absurd hr (List.not_mem_nil r),
      fun r hr => absurd hr (List.not_mem_nil r), by simp [startRowsNodup],
      fun r hr => absurd hr (List.not_mem_nil r)⟩
  | cons q rest ih =>
    obtain ⟨spanIdx, span⟩ := q
    intro seen rows h hwf
    rw [processSpans] at h
    split at h
    · exact ih _ _ h fun p hp => hwf p (List.mem_cons_of_mem _ hp)
    · split at h
      · exact absurd h (by simp)
      · rename_i msgs seen2 hgms
        split at h
        · exact absurd h (by simp)
        · rename_i more hrec
          cases h
          obtain ⟨gWF, gDelta, gNodup, gStart⟩ :=
            (rows_shape fuel).1 _ _ _ _ _ hgms (hwf _ (List.mem_cons_self _ _))
          obtain ⟨rWF, rNotSeen, rNodup, rStart⟩ :=
            ih _ _ hrec fun p hp => hwf p (List.mem_cons_of_mem _ hp)
          have hseen12 := gms_seen_mono hgms
          refine ⟨?_, ?_, ?_, ?_⟩
          · intro r hr
            rcases List.mem_append.1 hr with hr2 | hr2
            · exact gWF r hr2
            · exact rWF r hr2
          · intro r hr hidx
            rcases List.mem_append.1 hr with hr2 | hr2
            · exact (gDelta r hr2 hidx).2
            · exact fun hmem => rNotSeen r hr2 hidx (hseen12 _ hmem)
          · rw [startRowsNodup, List.filter_append, List.map_append]
            refine List.Nodup.append gNodup rNodup ?_
            intro x hx hy
            simp only [List.mem_map, List.mem_filter] at hx hy
            obtain ⟨r, ⟨hr, hr0⟩, hrid⟩ := hx
            obtain ⟨r2, ⟨hr2, hr20⟩, hr2id⟩ := hy
            have h1 := (gDelta r hr (by simpa using hr0)).1
            have h2 := rNotSeen r2 hr2 (by simpa using hr20)
            exact h2 (hr2id ▸ hrid ▸ h1)
          · intro r hr
            rcases List.mem_append.1 hr with hr2 | hr2
            · obtain ⟨r0, hr0, h0, hspan⟩ := gStart r hr2
              exact ⟨r0, List.mem_append_left _ hr0, h0, hspan⟩
            · obtain ⟨r0, hr0, h0, hspan⟩ := rStart r hr2
              exact ⟨r0, List.mem_append_right _ hr0, h0, hspan⟩

/-- In a list whose image under `f` has no duplicates, at most one element
can satisfy a predicate forcing a fixed `f`-value. -/
theorem countP_le_one_of_nodup_map {α β : Type} (l : List α) (f : α → β)
    (p : α → Bool) (y : β) (hnodup : (l.map f).Nodup)
    (hsame : ∀ a ∈ l, p a = true → f a = y) : l.countP p ≤ 1 := by
  induction l with
  | nil => simp
  | cons a l2 ih =>
    rw [List.map_cons, List.nodup_cons] at hnodup
    rw [List.countP_cons]
    cases hpa : p a with
    | false =>
      simpa using ih hnodup.2 fun b hb hpb => hsame b (List.mem_cons_of_mem _ hb) hpb
    | true =>
      have hz : l2.countP p = 0 := by
        rw [List.countP_eq_zero]
        intro b hb hpb
        have hfb : f b = y := hsame b (List.mem_cons_of_mem _ hb) hpb
        have hfa : f a = y := hsame a (List.mem_cons_self _ _) hpa
        exact hnodup.1 (List.mem_map.2 ⟨b, hb, hfb.trans hfa.symm⟩)
      simp [hz]

/-- Claim C7, amended: in every successful reduction output, operation and
duration cells are null on every row whose message index is not 0; every
span that contributes at least one row contributes exactly one row with
message index 0; and on that row the operation cell carries the span's
operation while the duration cell is null exactly when the span's recorded
duration is zero (still open), interval-valued otherwise.  (A span whose
rows were dropped entirely — a skipped duplicate, see the counterexample —
contributes no start row at all, which is the one correction to the claim
as stated.) -/
theorem claim_C7_amended (spans : List RecordedSpan) (rows : List traceRow)
    (hgen : generateSessionTraceVTable spans = .ok rows) :
    (∀ r ∈ rows, r.message_idx ≠ Datum.dInt 0 →
      r.operation = Datum.dNull ∧ r.duration = Datum.dNull) ∧
    (∀ k : Nat, (∃ r ∈ rows, r.span_idx = Datum.dInt k) →
      rows.countP
        (fun r => decide (r.span_idx = Datum.dInt k ∧ r.message_idx = Datum.dInt 0)) = 1) ∧
    (∀ r ∈ rows, ∀ (k : Nat) (sp0 : RecordedSpan),
      r.span_idx = Datum.dInt k → r.message_idx = Datum.dInt 0 → spans[k]? = some sp0 →
      r.operation = Datum.dString sp0.operation ∧
      r.duration =
        (if sp0.duration = 0 then Datum.dNull else Datum.dInterval sp0.duration)) := by
  rw [generateSessionTraceVTable_eq] at hgen
  revert hgen
  cases hps : processSpans (traceFuel spans) spans spans.enum [] with
  | error e => intro hgen; exact absurd hgen (by simp)
  | ok allLogs =>
    intro hgen
    have hrows : rows = allLogs.map rowOf := by
      have : Except.ok (ε := traceError) (allLogs.map rowOf) = .ok rows := hgen
      simpa using this.symm
    subst hrows
    have henumwf : ∀ p ∈ spans.enum, spans[p.1]? = some p.2 := by
      intro p hp
      exact List.mem_enum_iff_getElem?.1 (by cases p; exact hp)
    obtain ⟨hWF, _, hNodup, hStart⟩ :=
      processSpans_shape (traceFuel spans) spans spans.enum [] allLogs hps henumwf
    refine ⟨?_, ?_, ?_⟩
    · intro r hr hne
      obtain ⟨lrr, hmem, rfl⟩ := List.mem_map.1 hr
      have hidx : ¬lrr.index = 0 := fun h0 => hne (by simp [rowOf, h0])
      constructor <;> simp [rowOf, hidx]
    · intro k hex
      obtain ⟨r, hr, hspan⟩ := hex
      obtain ⟨lrr0, hmem0, rfl⟩ := List.mem_map.1 hr
      have hk0 : lrr0.span.index = k := by
        simpa [rowOf] using hspan
      rw [List.countP_map]
      have hcongr : ∀ lrr ∈ allLogs,
          ((fun r => decide (r.span_idx = Datum.dInt k ∧ r.message_idx = Datum.dInt 0)) ∘
            rowOf) lrr = true ↔
          (fun lrr => decide (lrr.span.index = k) && decide (lrr.index = 0)) lrr = true := by
        intro lrr _
        by_cases h1 : lrr.span.index = k <;> by_cases h2 : lrr.index = 0 <;>
          simp [rowOf, h1, h2]
      rw [List.countP_congr hcongr]
      have hstep : allLogs.countP
            (fun lrr => decide (lrr.span.index = k) && decide (lrr.index = 0)) =
          ((allLogs.filter fun r => r.index == 0).countP
            fun r => decide (r.span.index = k)) := by
        rw [List.countP_filter]
        refine List.countP_congr fun a _ => ?_
        simp
      have hle : allLogs.countP
          (fun lrr => decide (lrr.span.index = k) && decide (lrr.index = 0)) ≤ 1 := by
        rw [hstep]
        refine countP_le_one_of_nodup_map _ _ _
          (((spans[k]?).map RecordedSpan.spanID).getD 0) hNodup ?_
        intro r hrmem hpr
        have hrk : r.span.index = k := by simpa using hpr
        have hwf2 := hWF r (List.mem_of_mem_filter hrmem)
        rw [hrk] at hwf2
        rw [hwf2]
        rfl
      have hge : 0 < allLogs.countP
          (fun lrr => decide (lrr.span.index = k) && decide (lrr.index = 0)) := by
        obtain ⟨r0, hr0mem, h00, hspan0⟩ := hStart lrr0 hmem0
        refine List.countP_pos_iff.2 ⟨r0, hr0mem, ?_⟩
        simp [hspan0, hk0, h00]
      omega
    · intro r hr k sp0 hspanidx hmsgidx hget
      obtain ⟨lrr, hmem, rfl⟩ := List.mem_map.1 hr
      have hk : lrr.span.index = k := by simpa [rowOf] using hspanidx
      have hidx0 : lrr.index = 0 := by simpa [rowOf] using hmsgidx
      have hwf2 := hWF lrr hmem
      rw [hk, hget] at hwf2
      have hsp0 : sp0 = lrr.span.span := Option.some.inj hwf2
      subst hsp0
      by_cases hd : lrr.span.span.duration = 0 <;>
        constructor <;> simp [rowOf, hidx0, hd]

theorem claim_C7_witness :
    c7WitnessRows.countP
      (fun r => decide (r.span_idx = Datum.dInt 0 ∧ r.message_idx = Datum.dInt 0)) = 1 ∧
    (∀ r ∈ c7WitnessRows, r.message_idx ≠ Datum.dInt 0 →
      r.operation = Datum.dNull ∧ r.duration = Datum.dNull) := by
  have h := claim_C7_amended c7WitnessInput c7WitnessRows
    (by rw [generateSessionTraceVTable_eq]; decide)
  exact ⟨h.2.1 0 ⟨c7WitnessRows[0], by decide, by decide⟩, h.1⟩

/-! ## Every freshly seen span's expansion is a contiguous block -/

theorem block_occurrence :
    ∀ fuel : Nat,
      (∀ sp all seen rows seen2,
        getMessagesForSubtrace fuel sp all seen = .ok (rows, seen2) →
        all[sp.index]? = some sp.span →
        ∀ x, x ∈ seen2 → x ∉ seen →
        ∃ (m : Nat) (spm : RecordedSpan) (f : Nat) (s s2 : List Nat)
          (B U W : List logRecordRow),
          all[m]? = some spm ∧ spm.spanID = x ∧
          getMessagesForSubtrace f { span := spm, index := m } all s = .ok (B, s2) ∧
          rows = U ++ B ++ W) ∧
      (∀ sp all logs i cs seen rows seen2,
        mergeSpanLogs fuel sp all logs i cs seen = .ok (rows, seen2) →
        (∀ c ∈ cs, all[c.index]? = some c.span) →
        ∀ x, x ∈ seen2 → x ∉ seen →
        ∃ (m : Nat) (spm : RecordedSpan) (f : Nat) (s s2 : List Nat)
          (B U W : List logRecordRow),
          all[m]? = some spm ∧ spm.spanID = x ∧
          getMessagesForSubtrace f { span := spm, index := m } all s = .ok (B, s2) ∧
          rows = U ++ B ++ W) := by
  intro fuel
  induction fuel with
  | zero =>
    constructor
    · intro sp all seen rows seen2 h
      rw [gms_zero] at h
      split at h <;> exact absurd h (by simp)
    · intro sp all logs i cs seen rows seen2 h
      rw [merge_zero] at h
      exact absurd h (by simp)
  | succ n ih =>
    constructor
    · intro sp all seen rows seen2 h hwf x hx hnx
      have horig := h
      rw [gms_succ] at h
      split at h
      · exact absurd h (by simp)
      · split at h
        · exact absurd h (by simp)
        · rename_i rows1 seen1 hmerge
          cases h
          by_cases hx1 : x ∈ sp.span.spanID :: seen
          · have hxid : x = sp.span.spanID := by
              rcases List.mem_cons.1 hx1 with h1 | h1
              · exact h1
              · exact absurd h1 hnx
            subst hxid
            exact ⟨sp.index, sp.span, n + 1, seen, _, _, [], [], hwf, rfl, horig,
              by simp⟩
          · obtain ⟨m, spm, f, s, s2, B, U, W, h1, h2, h3, h4⟩ :=
              ih.2 _ _ _ _ _ _ _ _ hmerge
                (fun c hc => (getOrderedChildSpans_wf _ _ c hc).1) x hx hx1
            exact ⟨m, spm, f, s, s2, B,
              { timestamp := sp.span.startTime, msg := spanStartMsg sp.span.operation,
                span := sp, index := 0 } :: U, W, h1, h2, h3, by rw [h4]; rfl⟩
    · intro sp all logs i cs seen rows seen2 h hwfcs x hx hnx
      cases logs with
      | nil =>
        cases cs with
        | nil =>
          rw [merge_nil_nil] at h
          cases h
          exact absurd hx hnx
        | cons c cs2 =>
          rw [merge_nil_cons] at h
          split at h
          · exact absurd h (by simp)
          · split at h
            · exact absurd h (by simp)
            · rename_i childRows seen1 hchild
              split at h
              · exact absurd h (by simp)
              · rename_i rows1 seen3 hrec
                cases h
                by_cases hx1 : x ∈ seen1
                · obtain ⟨m, spm, f, s, s2, B, U, W, h1, h2, h3, h4⟩ :=
                    ih.1 _ _ _ _ _ hchild (hwfcs c (List.mem_cons_self _ _)) x hx1 hnx
                  exact ⟨m, spm, f, s, s2, B, U, W ++ rows1, h1, h2, h3,
                    by rw [h4]; simp [List.append_assoc]⟩
                · obtain ⟨m, spm, f, s, s2, B, U, W, h1, h2, h3, h4⟩ :=
                    ih.2 _ _ _ _ _ _ _ _ hrec
                      (fun c2 hc2 => hwfcs c2 (List.mem_cons_of_mem _ hc2)) x hx hx1
                  exact ⟨m, spm, f, s, s2, B, childRows ++ U, W, h1, h2, h3,
                    by rw [h4]; simp [List.append_assoc]⟩
      | cons l ls =>
        cases cs with
        | nil =>
          rw [merge_cons_nil] at h
          split at h
          · split at h
            · exact absurd h (by simp)
            · rename_i rows1 seen1 hrec
              cases h
              obtain ⟨m, spm, f, s, s2, B, U, W, h1, h2, h3, h4⟩ :=
                ih.2 _ _ _ _ _ _ _ _ hrec hwfcs x hx hnx
              exact ⟨m, spm, f, s, s2, B,
                { timestamp := l.time, msg := extractMsgFromRecord l,
                  span := sp, index := i + 1 } :: U, W, h1, h2, h3, by rw [h4]; rfl⟩
          · exact absurd h (by simp)
        | cons c cs2 =>
          rw [merge_cons_cons] at h
          split at h
          · split at h
            · exact absurd h (by simp)
            · rename_i rows1 seen1 hrec
              cases h
              obtain ⟨m, spm, f, s, s2, B, U, W, h1, h2, h3, h4⟩ :=
                ih.2 _ _ _ _ _ _ _ _ hrec hwfcs x hx hnx
              exact ⟨m, spm, f, s, s2, B,
                { timestamp := l.time, msg := extractMsgFromRecord l,
                  span := sp, index := i + 1 } :: U, W, h1, h2, h3, by rw [h4]; rfl⟩
          · split at h
            · exact absurd h (by simp)
            · rename_i childRows seen1 hchild
              split at h
              · exact absurd h (by simp)
              · rename_i rows1 seen3 hrec
                cases h
                by_cases hx1 : x ∈ seen1
                · obtain ⟨m, spm, f, s, s2, B, U, W, h1, h2, h3, h4⟩ :=
                    ih.1 _ _ _ _ _ hchild (hwfcs c (List.mem_cons_self _ _)) x hx1 hnx
                  exact ⟨m, spm, f, s, s2, B, U, W ++ rows1, h1, h2, h3,
                    by rw [h4]; simp [List.append_assoc]⟩
                · obtain ⟨m, spm, f, s, s2, B, U, W, h1, h2, h3, h4⟩ :=
                    ih.2 _ _ _ _ _ _ _ _ hrec
                      (fun c2 hc2 => hwfcs c2 (List.mem_cons_of_mem _ hc2)) x hx hx1
                  exact ⟨m, spm, f, s, s2, B, childRows ++ U, W, h1, h2, h3,
                    by rw [h4]; simp [List.append_assoc]⟩

/-- In a successful top-level walk, every listed span whose identifier is
not yet seen gets its subtrace expanded as one contiguous block of the
collected rows. -/
theorem processSpans_block (fuel : Nat) (all : List RecordedSpan) :
    ∀ (rest : List (Nat × RecordedSpan)) (seen : List Nat) (rows : List logRecordRow),
      processSpans fuel all rest seen = .ok rows →
      (∀ p ∈ rest, all[p.1]? = some p.2) →
      ∀ p ∈ rest, p.2.spanID ∉ seen →
      ∃ (m : Nat) (spm : RecordedSpan) (f : Nat) (s s2 : List Nat)
        (B U W : List logRecordRow),
        all[m]? = some spm ∧ spm.spanID = p.2.spanID ∧
        getMessagesForSubtrace f { span := spm, index := m } all s = .ok (B, s2) ∧
        rows = U ++ B ++ W := by
  intro rest
  induction rest with
  | nil =>
    intro seen rows h hwf p hp
    simp at hp
  | cons pq rest ih =>
    obtain ⟨spanIdx, span⟩ := pq
    intro seen rows h hwf p hp hnx
    rw [processSpans] at h
    split at h
    · rename_i hmem
      rcases List.mem_cons.1 hp with rfl | hp2
      · exact absurd hmem hnx
      · exact ih _ _ h (fun p2 hp2b => hwf p2 (List.mem_cons_of_mem _ hp2b)) p hp2 hnx
    · split at h
      · exact absurd h (by simp)
      · rename_i msgs seen2 hgms
        split at h
        · exact absurd h (by simp)
        · rename_i more hrec
          cases h
          rcases List.mem_cons.1 hp with rfl | hp2
          · exact ⟨spanIdx, span, fuel, seen, seen2, msgs, [], more,
              hwf _ (List.mem_cons_self _ _), rfl, hgms, by simp⟩
          · by_cases hx1 : p.2.spanID ∈ seen2
            · obtain ⟨m, spm, f, s, s2, B, U, W, h1, h2, h3, h4⟩ :=
                (block_occurrence fuel).1 _ _ _ _ _ hgms
                  (hwf _ (List.mem_cons_self _ _)) p.2.spanID hx1 hnx
              exact ⟨m, spm, f, s, s2, B, U, W ++ more, h1, h2, h3,
                by rw [h4]; simp [List.append_assoc]⟩
            · obtain ⟨m, spm, f, s, s2, B, U, W, h1, h2, h3, h4⟩ :=
                ih _ _ hrec (fun p2 hp2b => hwf p2 (List.mem_cons_of_mem _ hp2b))
                  p hp2 hx1
              exact ⟨m, spm, f, s, s2, B, msgs ++ U, W, h1, h2, h3,
                by rw [h4]; simp [List.append_assoc]⟩

/-- Claim C3, amended: provided the input sequence is ordered by start
time — the precondition `getOrderedChildSpans` documents — the subtrees of
two spans sharing a parent appear in the output as two contiguous blocks,
the earlier-starting child's whole block before the later-starting child's,
never interleaved: the output splits as
`U ++ (a's full subtree rows) ++ V ++ (b's full subtree rows) ++ W`, each
block being one complete `getMessagesForSubtrace` expansion.  (Without the
ordering precondition the claim fails — see the counterexample — because
children are expanded in input order.) -/
theorem claim_C3_amended (spans : List RecordedSpan) (rows : List traceRow)
    (i j k : Nat) (a b q : RecordedSpan)
    (hsort : spans.Pairwise fun s t => s.startTime ≤ t.startTime)
    (ha : spans[i]? = some a) (hb : spans[j]? = some b) (hq : spans[k]? = some q)
    (hpa : a.parentSpanID = q.spanID) (hpb : b.parentSpanID = q.spanID)
    (hst : a.startTime < b.startTime)
    (hgen : generateSessionTraceVTable spans = .ok rows) :
    ∃ (fa : Nat) (sa sa2 : List Nat) (BA : List logRecordRow)
      (fb : Nat) (sb sb2 : List Nat) (BB : List logRecordRow)
      (U V W : List traceRow),
      getMessagesForSubtrace fa { span := a, index := i } spans sa = .ok (BA, sa2) ∧
      getMessagesForSubtrace fb { span := b, index := j } spans sb = .ok (BB, sb2) ∧
      rows = U ++ BA.map rowOf ++ V ++ BB.map rowOf ++ W := by
  obtain ⟨hilen, hia⟩ := List.getElem?_eq_some.1 ha
  obtain ⟨hjlen, hjb⟩ := List.getElem?_eq_some.1 hb
  have hij : i < j := by
    rcases Nat.lt_trichotomy i j with h1 | h1 | h1
    · exact h1
    · subst h1
      have hab : a = b := by rw [← hia, hjb]
      rw [hab] at hst
      exact absurd hst (lt_irrefl _)
    · have hle := List.pairwise_iff_getElem.1 hsort j i hjlen hilen h1
      rw [hia, hjb] at hle
      omega
  rw [generateSessionTraceVTable_eq] at hgen
  revert hgen
  cases hps : processSpans (traceFuel spans) spans spans.enum [] with
  | error e => intro hgen; exact absurd hgen (by simp)
  | ok allLogs =>
    intro hgen
    have hrows : rows = allLogs.map rowOf := by
      have h2 : Except.ok (ε := traceError) (allLogs.map rowOf) = .ok rows := hgen
      simpa using h2.symm
    subst hrows
    have henumwf : ∀ p ∈ spans.enum, spans[p.1]? = some p.2 := by
      intro p hp
      exact List.mem_enum_iff_getElem?.1 (by cases p; exact hp)
    obtain ⟨m, spm, f, s, s2, Bq, U0, W0, hm, hmid, hmgms, htop⟩ :=
      processSpans_block (traceFuel spans) spans spans.enum [] allLogs hps henumwf
        (k, q) (List.mem_enum_iff_getElem?.2 hq) (by simp)
    cases f with
    | zero =>
      rw [gms_zero] at hmgms
      split at hmgms <;> exact absurd hmgms (by simp)
    | succ n =>
      rw [gms_succ] at hmgms
      split at hmgms
      · exact absurd hmgms (by simp)
      · split at hmgms
        · exact absurd hmgms (by simp)
        · rename_i rows1 seen1 hmerge
          cases hmgms
          obtain ⟨cs1, cs2, cs3, hcs⟩ :=
            getOrderedChildSpans_split spm.spanID spans i j a b hij ha hb
              (by rw [hpa, ← hmid]) (by rw [hpb, ← hmid])
          obtain ⟨fa, sa, sa2, BA, fb, sb, sb2, BB, u, v, w, hga, hgb, _, hr1⟩ :=
            merge_two_child_blocks n { span := spm, index := m } spans spm.logs 0
              _ _ _ _ hmerge cs1 { span := a, index := i } cs2
              { span := b, index := j } cs3 hcs
          refine ⟨fa, sa, sa2, BA, fb, sb, sb2, BB,
            ((U0 ++ { timestamp := spm.startTime, msg := spanStartMsg spm.operation,
                      span := { span := spm, index := m },
                      index := 0 } :: u).map rowOf),
            v.map rowOf, ((w ++ W0).map rowOf), hga, hgb, ?_⟩
          rw [htop, hr1]
          simp [List.map_append, List.append_assoc]

theorem claim_C3_witness :
    ∃ (fa : Nat) (sa sa2 : List Nat) (BA : List logRecordRow)
      (fb : Nat) (sb sb2 : List Nat) (BB : List logRecordRow)
      (U V W : List traceRow),
      getMessagesForSubtrace fa
          { span := { spanID := 2, parentSpanID := 1, operation := "a", startTime := 3,
                      duration := 1, logs := [] }, index := 1 } c3SortedInput sa =
        .ok (BA, sa2) ∧
      getMessagesForSubtrace fb
          { span := { spanID := 3, parentSpanID := 1, operation := "b", startTime := 8,
                      duration := 1, logs := [] }, index := 2 } c3SortedInput sb =
        .ok (BB, sb2) ∧
      [ { span_idx := Datum.dInt 0, message_idx := Datum.dInt 0,
          timestamp := Datum.dTimestampTZ 1, duration := Datum.dInterval 9,
          operation := Datum.dString "p", location := Datum.dString "",
          tag := Datum.dString "", message := Datum.dString "=== SPAN START: p ===" },
        { span_idx := Datum.dInt 1, message_idx := Datum.dInt 0,
          timestamp := Datum.dTimestampTZ 3, duration := Datum.dInterval 1,
          operation := Datum.dString "a", location := Datum.dString "",
          tag := Datum.dString "", message := Datum.dString "=== SPAN START: a ===" },
        { span_idx := Datum.dInt 2, message_idx := Datum.dInt 0,
          timestamp := Datum.dTimestampTZ 8, duration := Datum.dInterval 1,
          operation := Datum.dString "b", location := Datum.dString "",
          tag := Datum.dString "", message := Datum.dString "=== SPAN START: b ===" } ] =
        U ++ BA.map rowOf ++ V ++ BB.map rowOf ++ W :=
  claim_C3_amended c3SortedInput _ 1 2 0
    { spanID := 2, parentSpanID := 1, operation := "a", startTime := 3, duration := 1,
      logs := [] }
    { spanID := 3, parentSpanID := 1, operation := "b", startTime := 8, duration := 1,
      logs := [] }
    { spanID := 1, parentSpanID := 0, operation := "p", startTime := 1, duration := 9,
      logs := [] }
    (by decide) (by decide) (by decide) (by decide) (by decide) (by decide) (by decide)
    (by rw [generateSessionTraceVTable_eq]; decide)

theorem no_split_error :
    ∀ fuel : Nat,
      (∀ sp all seen e, getMessagesForSubtrace fuel sp all seen = .error e →
        isSplitError e = false) ∧
      (∀ sp all logs i cs seen e, mergeSpanLogs fuel sp all logs i cs seen = .error e →
        isSplitError e = false) := by
  intro fuel
  induction fuel with
  | zero =>
    constructor
    · intro sp all seen e h
      rw [gms_zero] at h
      split at h <;> (cases h; rfl)
    · intro sp all logs i cs seen e h
      rw [merge_zero] at h
      cases h
      rfl
  | succ n ih =>
    constructor
    · intro sp all seen e h
      rw [gms_succ] at h
      split at h
      · cases h; rfl
      · split at h
        · rename_i e1 hmerge
          cases h
          exact ih.2 _ _ _ _ _ _ _ hmerge
        · exact absurd h (by simp)
    · intro sp all logs i cs seen e h
      cases logs with
      | nil =>
        cases cs with
        | nil =>
          rw [merge_nil_nil] at h
          exact absurd h (by simp)
        | cons c cs =>
          rw [merge_nil_cons] at h
          split at h
          · cases h; rfl
          · split at h
            · rename_i e1 hchild
              cases h
              exact ih.1 _ _ _ _ hchild
            · rename_i childRows seen1 hchild
              split at h
              · rename_i e1 hrec
                cases h
                exact ih.2 _ _ _ _ _ _ _ hrec
              · exact absurd h (by simp)
      | cons l ls =>
        cases cs with
        | nil =>
          rw [merge_cons_nil] at h
          split at h
          · split at h
            · rename_i e1 hrec
              cases h
              exact ih.2 _ _ _ _ _ _ _ hrec
            · exact absurd h (by simp)
          · cases h; rfl
        | cons c cs =>
          rw [merge_cons_cons] at h
          split at h
          · split at h
            · rename_i e1 hrec
              cases h
              exact ih.2 _ _ _ _ _ _ _ hrec
            · exact absurd h (by simp)
          · split at h
            · rename_i e1 hchild
              cases h
              exact ih.1 _ _ _ _ hchild
            · rename_i childRows seen1 hchild
              split at h
              · rename_i e1 hrec
                cases h
                exact ih.2 _ _ _ _ _ _ _ hrec
              · exact absurd h (by simp)

theorem processSpans_no_split_error (fuel : Nat) (all : List RecordedSpan) :
    ∀ rest seen e, processSpans fuel all rest seen = .error e → isSplitError e = false := by
  intro rest
  induction rest with
  | nil =>
    intro seen e h
    exact absurd h (by simp [processSpans])
  | cons p rest ih =>
    obtain ⟨spanIdx, span⟩ := p
    intro seen e h
    rw [processSpans] at h
    split at h
    · exact ih _ _ h
    · split at h
      · rename_i e1 hgms
        cases h
        exact (no_split_error fuel).1 _ _ _ _ hgms
      · rename_i msgs seen2 hgms
        split at h
        · rename_i e1 hrec
          cases h
          exact ih _ _ hrec
        · exact absurd h (by simp)

/-- Claim C9: the log-message splitting regular expression matches every
possible string (every component is optional and the trailing `.*` matches
anything), so the "unable to split trace message" error branch of
`generateSessionTraceVTable` is unreachable: no reduction outcome, on any
input, is a message-decomposition failure. -/
theorem claim_C9 :
    (∀ x : List Tok, logMessageRE.rmatch x = true) ∧
    (∀ s : String, (findStringSubmatchIndex s).isSome = true) ∧
    (∀ spans : List RecordedSpan,
      failedOnSplit (generateSessionTraceVTable spans) = false) := by
  refine ⟨logMessageRE_rmatch, ?_, ?_⟩
  · intro s
    rw [findStringSubmatchIndex_eq]
    rfl
  · intro spans
    rw [generateSessionTraceVTable_eq]
    cases h : processSpans (traceFuel spans) spans spans.enum [] with
    | error e =>
      simp only [failedOnSplit]
      exact processSpans_no_split_error _ _ _ _ _ h
    | ok allLogs => rfl

/-! ## Registry lemmas (claim C4) -/

theorem cancelQueryLoop_unauthorized (store : List (Nat × registrySession))
    (queryID : Nat) (username : String) (hroot : username ≠ RootUser)
    (hown : ∀ p ∈ store, p.2.hasQuery queryID = true → p.2.user ≠ username) :
    cancelQueryLoop store queryID username = (false, some (.queryNotFound queryID)) := by
  induction store with
  | nil => rfl
  | cons p rest ih =>
    obtain ⟨id, session⟩ := p
    have ihrest := ih fun q hq => hown q (List.mem_cons_of_mem _ hq)
    by_cases hauth : username = RootUser ∨ username = session.user
    · have hq : session.hasQuery queryID = false := by
        by_contra hq
        have hq' : session.hasQuery queryID = true := by
          revert hq; cases session.hasQuery queryID <;> simp
        have := hown (id, session) (List.mem_cons_self _ _) hq'
        rcases hauth with h | h
        · exact hroot h
        · exact this h.symm
      simp [cancelQueryLoop, hauth, hq, ihrest]
    · simp [cancelQueryLoop, hauth, ihrest]

theorem cancelQueryLoop_absent (store : List (Nat × registrySession))
    (queryID : Nat) (username : String)
    (habs : ∀ p ∈ store, p.2.hasQuery queryID = false) :
    cancelQueryLoop store queryID username = (false, some (.queryNotFound queryID)) := by
  induction store with
  | nil => rfl
  | cons p rest ih =>
    obtain ⟨id, session⟩ := p
    have ihrest := ih fun q hq => habs q (List.mem_cons_of_mem _ hq)
    have hq : session.hasQuery queryID = false := habs (id, session) (List.mem_cons_self _ _)
    by_cases hauth : username = RootUser ∨ username = session.user
    · simp [cancelQueryLoop, hauth, hq, ihrest]
    · simp [cancelQueryLoop, hauth, ihrest]

theorem cancelSessionLoop_unauthorized (store : List (Nat × registrySession))
    (sessionID : Nat) (username : String) (hroot : username ≠ RootUser)
    (hown : ∀ p ∈ store, p.1 = sessionID → p.2.user ≠ username) :
    cancelSessionLoop store sessionID username = (false, some (.sessionNotFound sessionID)) := by
  induction store with
  | nil => rfl
  | cons p rest ih =>
    obtain ⟨id, session⟩ := p
    have ihrest := ih fun q hq => hown q (List.mem_cons_of_mem _ hq)
    by_cases hauth : username = RootUser ∨ username = session.user
    · have hid : id ≠ sessionID := by
        intro hid
        have := hown (id, session) (List.mem_cons_self _ _) hid
        rcases hauth with h | h
        · exact hroot h
        · exact this h.symm
      simp [cancelSessionLoop, hauth, hid, ihrest]
    · simp [cancelSessionLoop, hauth, ihrest]

theorem cancelSessionLoop_absent (store : List (Nat × registrySession))
    (sessionID : Nat) (username : String)
    (habs : ∀ p ∈ store, p.1 ≠ sessionID) :
    cancelSessionLoop store sessionID username = (false, some (.sessionNotFound sessionID)) := by
  induction store with
  | nil => rfl
  | cons p rest ih =>
    obtain ⟨id, session⟩ := p
    have ihrest := ih fun q hq => habs q (List.mem_cons_of_mem _ hq)
    have hid := habs (id, session) (List.mem_cons_self _ _)
    by_cases hauth : username = RootUser ∨ username = session.user
    · simp [cancelSessionLoop, hauth, hid, ihrest]
    · simp [cancelSessionLoop, hauth, ihrest]

/-- Claim C4: `CancelQuery` (and `CancelSession`) invoked by a user who is
neither the cluster superuser nor the owner of the session holding the
target returns exactly the same result — `false` plus the same not-found
error — as the same call made for an ID that exists in no registered
session; authorization failure and true absence are indistinguishable to
the caller. -/
theorem claim_C4 (r r2 : SessionRegistry) (qid sid : Nat) (username u2 : String) :
    (username ≠ RootUser →
      (∀ p ∈ r.store, p.2.hasQuery qid = true → p.2.user ≠ username) →
      CancelQuery r qid username = (false, some (.queryNotFound qid))) ∧
    ((∀ p ∈ r2.store, p.2.hasQuery qid = false) →
      CancelQuery r2 qid u2 = (false, some (.queryNotFound qid))) ∧
    (username ≠ RootUser →
      (∀ p ∈ r.store, p.1 = sid → p.2.user ≠ username) →
      CancelSession r sid username = (false, some (.sessionNotFound sid))) ∧
    ((∀ p ∈ r2.store, p.1 ≠ sid) →
      CancelSession r2 sid u2 = (false, some (.sessionNotFound sid))) :=
  ⟨fun hroot hown => cancelQueryLoop_unauthorized r.store qid username hroot hown,
   fun habs => cancelQueryLoop_absent r2.store qid u2 habs,
   fun hroot hown => cancelSessionLoop_unauthorized r.store sid username hroot hown,
   fun habs => cancelSessionLoop_absent r2.store sid u2 habs⟩

theorem claim_C4_witness :
    CancelQuery witnessRegistry 5 "bob" = (false, some (.queryNotFound 5)) ∧
    CancelQuery witnessRegistry 99 "bob" = (false, some (.queryNotFound 99)) ∧
    CancelSession witnessRegistry 1 "bob" = (false, some (.sessionNotFound 1)) ∧
    CancelSession witnessRegistry 77 "bob" = (false, some (.sessionNotFound 77)) := by
  have h := claim_C4 witnessRegistry witnessRegistry 5 1 "bob" "bob"
  have h2 := claim_C4 witnessRegistry witnessRegistry 99 77 "bob" "bob"
  refine ⟨h.1 (by decide) ?_, h2.2.1 ?_, h.2.2.1 (by decide) ?_, h2.2.2.2 ?_⟩
  · intro p hp hq
    simp only [witnessRegistry, List.mem_cons, List.not_mem_nil, or_false] at hp
    rcases hp with rfl | rfl
    · decide
    · simp at hq
  · intro p hp
    simp only [witnessRegistry, List.mem_cons, List.not_mem_nil, or_false] at hp
    rcases hp with rfl | rfl <;> decide
  · intro p hp hid
    simp only [witnessRegistry, List.mem_cons, List.not_mem_nil, or_false] at hp
    rcases hp with rfl | rfl
    · decide
    · simp at hid
  · intro p hp
    simp only [witnessRegistry, List.mem_cons, List.not_mem_nil, or_false] at hp
    rcases hp with rfl | rfl <;> decide

/-! ## Schema-change runner lemmas (claim C5) -/

theorem runRetryingJob_eq (l : List schemaChangeOutcome)
    (h : ∃ o ∈ l, isTerminalOutcome o = true) :
    runRetryingJob l = some (permErrOf (firstTerminal l), leadingRetryables l + 1) := by
  induction l with
  | nil => simp at h
  | cons o rest ih =>
    cases o with
    | retryableError =>
      have hrest : ∃ o ∈ rest, isTerminalOutcome o = true := by
        obtain ⟨o, ho, hterm⟩ := h
        rcases List.mem_cons.1 ho with rfl | ho'
        · simp [isTerminalOutcome] at hterm
        · exact ⟨o, ho', hterm⟩
      simp [runRetryingJob, ih hrest, firstTerminal, List.find?, isTerminalOutcome,
        leadingRetryables]
    | success => simp [runRetryingJob, firstTerminal, List.find?, isTerminalOutcome,
        permErrOf, leadingRetryables]
    | errDescriptorNotFound => simp [runRetryingJob, firstTerminal, List.find?,
        isTerminalOutcome, permErrOf, leadingRetryables]
    | permanentError e => simp [runRetryingJob, firstTerminal, List.find?,
        isTerminalOutcome, permErrOf, leadingRetryables]

theorem execSchemaChangesLoop_eq (jobs : List SchemaChanger) (firstError : Option Nat)
    (h : ∀ sc ∈ jobs, ∃ o ∈ sc.attempts, isTerminalOutcome o = true) :
    execSchemaChangesLoop jobs firstError =
      some ((match firstError with
              | some e => some e
              | none => specFirstError jobs),
            jobs.map fun sc => leadingRetryables sc.attempts + 1) := by
  induction jobs generalizing firstError with
  | nil => cases firstError <;> rfl
  | cons sc rest ih =>
    have hsc := h sc (List.mem_cons_self _ _)
    have hrest : ∀ s ∈ rest, ∃ o ∈ s.attempts, isTerminalOutcome o = true :=
      fun s hs => h s (List.mem_cons_of_mem _ hs)
    have hspec : specFirstError (sc :: rest) =
        match permErrOf (firstTerminal sc.attempts) with
        | some e => some e
        | none => specFirstError rest := by
      simp only [specFirstError, List.filterMap_cons]
      cases permErrOf (firstTerminal sc.attempts) <;> simp
    simp only [execSchemaChangesLoop, runRetryingJob_eq sc.attempts hsc]
    cases firstError with
    | some e0 =>
      rw [ih (some e0) hrest]
      simp
    | none =>
      cases hj : permErrOf (firstTerminal sc.attempts) with
      | none =>
        rw [ih none hrest, hspec, hj]
        simp
      | some e =>
        rw [ih (some e) hrest, hspec, hj]
        simp

/-- Claim C5: `execSchemaChanges` attempts every queued schema-change job
in queue order; later jobs still run after a permanent failure, a job
classified permanent is not retried again (its attempt count is exactly its
leading retryable attempts plus the one terminal attempt), the returned
value is the permanent error of the earliest job in queue order that
produced one (`none` if none did), and the queue is cleared. -/
theorem claim_C5 (scc : schemaChangerCollection)
    (h : ∀ sc ∈ scc.schemaChangers, ∃ o ∈ sc.attempts, isTerminalOutcome o = true) :
    execSchemaChanges scc =
      some (specFirstError scc.schemaChangers,
            scc.schemaChangers.map fun sc => leadingRetryables sc.attempts + 1,
            { schemaChangers := [] }) := by
  simp [execSchemaChanges, execSchemaChangesLoop_eq scc.schemaChangers none h]

theorem claim_C5_witness :
    execSchemaChanges witnessQueue =
      some (specFirstError witnessQueue.schemaChangers,
            witnessQueue.schemaChangers.map fun sc => leadingRetryables sc.attempts + 1,
            { schemaChangers := [] }) ∧
    specFirstError witnessQueue.schemaChangers = some 42 ∧
    (witnessQueue.schemaChangers.map fun sc => leadingRetryables sc.attempts + 1) =
      [2, 2, 1] :=
  ⟨claim_C5 witnessQueue (by decide), by decide, by decide⟩

/-! ## Tracing state machine (claims C6 and C10) -/

/-- Claim C6: `StartTracing` called while tracing is already enabled
returns `nil` and leaves the entire tracing state exactly as it was,
regardless of the second call's arguments; `StopTracing` called while
tracing is not enabled returns `nil` and changes no state. -/
theorem claim_C6 (env env2 : TracingEnv) (st st2 : SessionTracing)
    (recType : Nat) (kvTracingEnabled : Bool) :
    (st.enabled = true → StartTracing env st recType kvTracingEnabled = (st, none)) ∧
    (st2.enabled = false → StopTracing env2 st2 = (st2, none)) := by
  constructor
  · intro h
    simp [StartTracing, h]
  · intro h
    simp [StopTracing, h]

theorem claim_C6_witness :
    StartTracing witnessEnv witnessEnabledState 0 false = (witnessEnabledState, none) ∧
    StopTracing witnessEnv witnessIdleState = (witnessIdleState, none) :=
  ⟨(claim_C6 witnessEnv witnessEnv witnessEnabledState witnessIdleState 0 false).1 rfl,
   (claim_C6 witnessEnv witnessEnv witnessEnabledState witnessIdleState 0 false).2 rfl⟩

/-- Claim C10: `StopTracing` never clears `firstTxnSpan`.  After a trace
begun inside a transaction is stopped, a further `StartTracing` outside any
transaction leaves the stale transaction span in place, and the following
`getRecording` collects that span's recording into the new trace's
output. -/
theorem claim_C10 (env1 env2 env3 env4 : TracingEnv) (st0 : SessionTracing)
    (r1 r2 : Nat) (k1 k2 : Bool) (ts : Nat)
    (h0 : st0.enabled = false)
    (h1 : env1.inTxn = true) (h2 : env1.txnCtxSpan = some ts)
    (h3 : env3.inTxn = false) :
    (StartTracing env1 st0 r1 k1).2 = none ∧
    (StartTracing env1 st0 r1 k1).1.firstTxnSpan = some ts ∧
    (StopTracing env2 (StartTracing env1 st0 r1 k1).1).1.firstTxnSpan = some ts ∧
    (StartTracing env3 (StopTracing env2 (StartTracing env1 st0 r1 k1).1).1 r2 k2).1.firstTxnSpan
      = some ts ∧
    getRecording env4
        (StartTracing env3 (StopTracing env2 (StartTracing env1 st0 r1 k1).1).1 r2 k2).1 =
      (match generateSessionTraceVTable
          (env4.recordingOf ts ++ env4.recordingOf env3.newConnSpan) with
        | .ok rows => .ok rows
        | .error e => .error (.reduction e)) := by
  have hstart : StartTracing env1 st0 r1 k1 =
      ({ st0 with
          enabled := true
          kvTracingEnabled := k1
          recordingType := r1
          firstTxnSpan := some ts
          connSpan := some env1.newConnSpan }, none) := by
    simp [StartTracing, h0, h1, h2]
  rw [hstart]
  set st1 : SessionTracing :=
    { st0 with
        enabled := true
        kvTracingEnabled := k1
        recordingType := r1
        firstTxnSpan := some ts
        connSpan := some env1.newConnSpan } with hst1
  have hstop : (StopTracing env2 st1).1.firstTxnSpan = some ts ∧
      (StopTracing env2 st1).1.enabled = false := by
    simp only [StopTracing, hst1]
    cases generateSessionTraceVTable
        (env2.recordingOf ts ++ env2.recordingOf env1.newConnSpan) <;> simp
  refine ⟨rfl, rfl, hstop.1, ?_, ?_⟩
  · simp [StartTracing, hstop.2, h3, hstop.1]
  · have hst3 : (StartTracing env3 (StopTracing env2 st1).1 r2 k2).1.enabled = true ∧
        (StartTracing env3 (StopTracing env2 st1).1 r2 k2).1.firstTxnSpan = some ts ∧
        (StartTracing env3 (StopTracing env2 st1).1 r2 k2).1.connSpan = some env3.newConnSpan := by
      simp [StartTracing, hstop.2, h3, hstop.1]
    simp only [getRecording, hst3.1, hst3.2.1, hst3.2.2]
    cases generateSessionTraceVTable
        (env4.recordingOf ts ++ env4.recordingOf env3.newConnSpan) <;> simp

theorem claim_C10_witness :
    (StartTracing witnessEnv witnessIdleState 1 true).2 = none ∧
    (StartTracing witnessEnv witnessIdleState 1 true).1.firstTxnSpan = some 9 ∧
    (StopTracing witnessEnv (StartTracing witnessEnv witnessIdleState 1 true).1).1.firstTxnSpan
      = some 9 ∧
    (StartTracing witnessNoTxnEnv
        (StopTracing witnessEnv (StartTracing witnessEnv witnessIdleState 1 true).1).1
        0 false).1.firstTxnSpan = some 9 ∧
    getRecording witnessEnv
        (StartTracing witnessNoTxnEnv
          (StopTracing witnessEnv (StartTracing witnessEnv witnessIdleState 1 true).1).1
          0 false).1 =
      (match generateSessionTraceVTable
          (witnessEnv.recordingOf 9 ++ witnessEnv.recordingOf witnessNoTxnEnv.newConnSpan) with
        | .ok rows => .ok rows
        | .error e => .error (.reduction e)) :=
  claim_C10 witnessEnv witnessEnv witnessNoTxnEnv witnessEnv witnessIdleState
    1 0 true false 9 rfl rfl rfl rfl

/-! ## Claim C1: duplicates are an error only when reached as children -/

/-- Counterexample to claim C1 as stated: `c1Input` contains two spans with
the same span identifier, yet the reduction returns a successful output in
which the second span was silently dropped (no row carries span index 1). -/
theorem claim_C1_counterexample :
    (c1Input[0]?).map RecordedSpan.spanID = some 1 ∧
    (c1Input[1]?).map RecordedSpan.spanID = some 1 ∧
    generateSessionTraceVTable c1Input =
      .ok [ { span_idx := .dInt 0, message_idx := .dInt 0,
              timestamp := .dTimestampTZ 10, duration := .dInterval 5,
              operation := .dString "a", location := .dString "",
              tag := .dString "", message := .dString "=== SPAN START: a ===" } ] := by
  refine ⟨rfl, rfl, ?_⟩
  rw [generateSessionTraceVTable_eq]
  decide

/-! ## Claim C2: merge ties favor the child span, not the log entry -/

/-- Amended claim C2: in the reduction's merge of a span's own log entries
with its child subtrees, whenever the head log entry's timestamp is equal
to the head child span's start time, the child subtree's rows are emitted
before the log entry (ties favor the child span, because the source only
takes the log entry when its timestamp is strictly `Before` the child's
start). -/
theorem claim_C2_amended (fuel : Nat) (sp c : spanWithIndex) (all : List RecordedSpan)
    (l : RecordedSpan_LogRecord) (ls : List RecordedSpan_LogRecord) (i : Nat)
    (cs : List spanWithIndex) (seen : List Nat) (out : List logRecordRow)
    (seen2 : List Nat)
    (htie : l.time = c.span.startTime)
    (h : mergeSpanLogs (fuel + 1) sp all (l :: ls) i (c :: cs) seen = .ok (out, seen2)) :
    ∃ childRows seen1 rest,
      getMessagesForSubtrace fuel c all seen = .ok (childRows, seen1) ∧
      mergeSpanLogs fuel sp all (l :: ls) i cs seen1 = .ok (rest, seen2) ∧
      out = childRows ++ rest := by
  rw [merge_cons_cons, if_neg (by rw [htie]; exact lt_irrefl _)] at h
  split at h
  · exact absurd h (by simp)
  · rename_i childRows seen1 hchild
    split at h
    · exact absurd h (by simp)
    · rename_i rows seen3 hrec
      cases h
      exact ⟨childRows, seen1, rows, hchild, hrec, rfl⟩

theorem claim_C2_witness :
    ∃ childRows seen1 rest,
      getMessagesForSubtrace 4 { span := c2Child, index := 1 } c2Input [1] =
        .ok (childRows, seen1) ∧
      mergeSpanLogs 4 { span := c2Parent, index := 0 } c2Input
        [ { time := 5, fields := [("event", "L")] } ] 0 [] seen1 = .ok (rest, [2, 1]) ∧
      [ { timestamp := 5, msg := "=== SPAN START: c ===",
          span := { span := c2Child, index := 1 }, index := 0 },
        { timestamp := 5, msg := "L",
          span := { span := c2Parent, index := 0 }, index := 1 } ] =
        childRows ++ rest :=
  claim_C2_amended 4 { span := c2Parent, index := 0 } { span := c2Child, index := 1 }
    c2Input { time := 5, fields := [("event", "L")] } [] 0 [] [1]
    [ { timestamp := 5, msg := "=== SPAN START: c ===",
        span := { span := c2Child, index := 1 }, index := 0 },
      { timestamp := 5, msg := "L",
        span := { span := c2Parent, index := 0 }, index := 1 } ]
    [2, 1] rfl (by decide)

/-- Counterexample to claim C2 as stated: in `c2Input` the parent's log
entry and the child's start share timestamp 5, and the output places the
child's start row (span index 1, message index 0) before the parent's log
row (span index 0, message index 1) — the tie favors the child, not the
log entry. -/
theorem claim_C2_counterexample :
    generateSessionTraceVTable c2Input =
      .ok [ { span_idx := .dInt 0, message_idx := .dInt 0,
              timestamp := .dTimestampTZ 1, duration := .dInterval 9,
              operation := .dString "p", location := .dString "",
              tag := .dString "", message := .dString "=== SPAN START: p ===" },
            { span_idx := .dInt 1, message_idx := .dInt 0,
              timestamp := .dTimestampTZ 5, duration := .dInterval 1,
              operation := .dString "c", location := .dString "",
              tag := .dString "", message := .dString "=== SPAN START: c ===" },
            { span_idx := .dInt 0, message_idx := .dInt 1,
              timestamp := .dTimestampTZ 5, duration := .dNull,
              operation := .dNull, location := .dString "",
              tag := .dString "", message := .dString "L" } ] := by
  rw [generateSessionTraceVTable_eq]
  decide

/-! ## Claim C3: sibling order follows input order, not start time -/

/-- Counterexample to claim C3 as stated: in `c3Input` the spans at
positions 1 (start time 8) and 2 (start time 3) share parent span 1, yet
the subtree rows of the later-starting child (position 1) precede those of
the earlier-starting child (position 2), because the source expands
children in input order and only assumes the input is sorted by start
time. -/
theorem claim_C3_counterexample :
    (c3Input[1]?).map RecordedSpan.parentSpanID = some 1 ∧
    (c3Input[2]?).map RecordedSpan.parentSpanID = some 1 ∧
    (c3Input[1]?).map RecordedSpan.startTime = some 8 ∧
    (c3Input[2]?).map RecordedSpan.startTime = some 3 ∧
    generateSessionTraceVTable c3Input =
      .ok [ { span_idx := .dInt 0, message_idx := .dInt 0,
              timestamp := .dTimestampTZ 1, duration := .dInterval 9,
              operation := .dString "p", location := .dString "",
              tag := .dString "", message := .dString "=== SPAN START: p ===" },
            { span_idx := .dInt 1, message_idx := .dInt 0,
              timestamp := .dTimestampTZ 8, duration := .dInterval 1,
              operation := .dString "b", location := .dString "",
              tag := .dString "", message := .dString "=== SPAN START: b ===" },
            { span_idx := .dInt 2, message_idx := .dInt 0,
              timestamp := .dTimestampTZ 3, duration := .dInterval 1,
              operation := .dString "a", location := .dString "",
              tag := .dString "", message := .dString "=== SPAN START: a ===" } ] := by
  refine ⟨rfl, rfl, rfl, rfl, ?_⟩
  rw [generateSessionTraceVTable_eq]
  decide

/-! ## Claim C7: a dropped duplicate span contributes no start row -/

/-- Counterexample to claim C7 as stated: the reduction of `c7Input`
succeeds, but the input span at position 1 contributes no row at all — in
particular not exactly one row with message index 0. -/
theorem claim_C7_counterexample :
    c7Input.length = 2 ∧
    generateSessionTraceVTable c7Input =
      .ok [ { span_idx := .dInt 0, message_idx := .dInt 0,
              timestamp := .dTimestampTZ 3, duration := .dNull,
              operation := .dString "x", location := .dString "",
              tag := .dString "", message := .dString "=== SPAN START: x ===" } ] := by
  refine ⟨rfl, ?_⟩
  rw [generateSessionTraceVTable_eq]
  decide

/-! ## Determinism (claim C8) -/

/-- Claim C8: the reduction is deterministic — two runs of
`generateSessionTraceVTable` on the same input sequence produce identical
results.  (The Go function iterates only over its input slice and over
slices derived from it in order; its only map is used purely for
membership tests, never iterated.) -/
theorem claim_C8 (spans1 spans2 : List RecordedSpan) (h : spans1 = spans2) :
    generateSessionTraceVTable spans1 = generateSessionTraceVTable spans2 :=
  congrArg generateSessionTraceVTable h

theorem claim_C8_witness :
    generateSessionTraceVTable
        [{ spanID := 1, parentSpanID := 0, operation := "a", startTime := 10,
           duration := 5, logs := [] }] =
      generateSessionTraceVTable
        [{ spanID := 1, parentSpanID := 0, operation := "a", startTime := 10,
           duration := 5, logs := [] }] :=
  claim_C8 _ _ rfl

end CockroachSession
